import Mathlib

/-!
Shallow embedding of `vrc-get-vpm/src/unity_project/package_resolution.rs`:
the dependency-resolution core (entry table, pending worklist, resolution
context operations, driver loop and result builder), together with models
of the external primitives (`Version`, `VersionRange`, `PackageInfo`,
`LockedDependencyInfo`, the package environment) that the file consumes
but does not define.
-/

/-- Modelled from the spec: a concrete package version. The resolution core
only inspects the prerelease component for emptiness (`pre.is_empty()` /
`is_pre()`), compares versions with `<`, and clones them; the model carries
a numeric triple plus prerelease identifiers. -/
structure Version where
  major : Nat
  minor : Nat
  patch : Nat
  pre : List String
deriving DecidableEq, Repr

/-- Modelled from the spec: lexicographic comparison of prerelease
identifier lists, used to break ties between two prerelease versions. -/
def preLt : List String → List String → Bool
  | [], [] => false
  | [], _ :: _ => true
  | _ :: _, [] => false
  | a :: as, b :: bs => if a = b then preLt as bs else decide (a < b)

/-- Modelled from the spec: strict version order (`locked.version() < &min_ver`).
Numeric triple lexicographically; on a tie a prerelease sorts below the
corresponding release, and two prereleases compare by `preLt`. -/
def Version.lt (a b : Version) : Bool :=
  if a.major ≠ b.major then decide (a.major < b.major)
  else if a.minor ≠ b.minor then decide (a.minor < b.minor)
  else if a.patch ≠ b.patch then decide (a.patch < b.patch)
  else
    match a.pre.isEmpty, b.pre.isEmpty with
    | true, _ => false
    | false, true => true
    | false, false => preLt a.pre b.pre

/-- Modelled from the spec: `is_pre()` — the version has a non-empty
prerelease component. -/
def Version.is_pre (v : Version) : Bool :=
  !v.pre.isEmpty

/-- Modelled from the spec: a version range / selector is an external
primitive supporting membership testing against a version with an explicit
prerelease-allow flag (`match_pre`), and the query "does this range admit
prereleases" (`contains_pre`). -/
structure VersionRange where
  match_pre : Version → Bool → Bool
  contains_pre : Bool

/-- Modelled from the spec: `VersionRange::same_or_later(v)` — the
"at or after this version" range; a prerelease candidate matches only when
prereleases are allowed. -/
def VersionRange.same_or_later (v : Version) : VersionRange :=
  { match_pre := fun w allow => !(Version.lt w v) && (allow || w.pre.isEmpty)
    contains_pre := !v.pre.isEmpty }

/-- Modelled from the spec: a declared (manifest) dependency is a
range-or-exact-version; `as_single_version` answers "is this range exactly
one version" and `as_range` views it as a plain range. -/
structure DependencyRange where
  as_single_version : Option Version
  as_range : VersionRange

/-- Modelled from the spec: a locked dependency record — name, version, and
the recorded dependency ranges of the locked package. -/
structure LockedDependencyInfo where
  name : String
  version : Version
  dependencies : List (String × VersionRange)

/-- Modelled from the spec: a Package Record — name, version, its own
dependency ranges (`vpm_dependencies`), and the list of package names it
marks as superseded (`legacy_packages`). -/
structure PackageInfo where
  name : String
  version : Version
  vpm_dependencies : List (String × VersionRange)
  legacy_packages : List String

/-- Modelled from the spec: the target platform version is opaque to the
resolution core; it is only passed through to environment lookups. -/
abbrev UnityVersion : Type := Nat

/-- Modelled from the spec: a version selector is either "exact version V"
or "best match for range R, optionally restricted to platform-version
compatibility U". -/
inductive VersionSelector where
  | specific_version (v : Version)
  | range_for (unity : Option UnityVersion) (range : VersionRange)

/-- Modelled from the spec: the package environment capability —
`find_package_by_name(name, selector) -> optional Package Record`. -/
structure PackageCollection where
  find_package_by_name : String → VersionSelector → Option PackageInfo

/-- Modelled from the spec: the fatal resolution error; the caller receives
only the missing dependency's name. -/
inductive AddPackageErr where
  | DependencyNotFound (dependency_name : String)
deriving DecidableEq, Repr

section MapHelpers

variable {α : Type}

/-- Lookup in an association list keyed by strings (model of `HashMap` /
`HashMap::get`). -/
def lookupD (m : List (String × α)) (k : String) : Option α :=
  match m with
  | [] => none
  | kv :: rest => if kv.1 = k then some kv.2 else lookupD rest k

/-- Insert-or-modify in an association list: the entry for `k` is rewritten
through `f` (receiving the old value when present); absent keys are
appended at the front of the untouched tail. Models both
`HashMap::entry(k).or_default()` mutation and `HashMap::insert`. -/
def updateD (m : List (String × α)) (k : String) (f : Option α → α) : List (String × α) :=
  match m with
  | [] => [(k, f none)]
  | kv :: rest => if kv.1 = k then (kv.1, f (some kv.2)) :: rest else kv :: updateD rest k f

/-- Key removal in an association list (model of `HashMap::remove`). -/
def removeD (m : List (String × α)) (k : String) : List (String × α) :=
  m.filter (fun kv => kv.1 ≠ k)

end MapHelpers

/-- Set insertion on a list of names (model of `HashSet::insert`). -/
def insertS (s : List String) (x : String) : List String :=
  if x ∈ s then s else x :: s

/-- Set removal on a list of names (model of `HashSet::remove`). -/
def removeS (s : List String) (x : String) : List String :=
  s.filter (fun y => y ≠ x)

section MapLemmas

variable {α : Type}

theorem lookupD_updateD_self (m : List (String × α)) (k : String) (f : Option α → α) :
    lookupD (updateD m k f) k = some (f (lookupD m k)) := by
  induction m with
  | nil => simp [lookupD, updateD]
  | cons kv rest ih =>
    by_cases h : kv.1 = k
    · simp [lookupD, updateD, h]
    · simp [lookupD, updateD, h, ih]

theorem lookupD_updateD_ne (m : List (String × α)) (k k' : String) (f : Option α → α)
    (h : k' ≠ k) : lookupD (updateD m k f) k' = lookupD m k' := by
  have hne : ¬(k = k') := fun hh => h hh.symm
  induction m with
  | nil => simp [lookupD, updateD, hne]
  | cons kv rest ih =>
    obtain ⟨a, b⟩ := kv
    by_cases hk : a = k
    · subst hk
      simp [lookupD, updateD, hne]
    · by_cases hk' : a = k'
      · simp [lookupD, updateD, hk, hk', h]
      · simp [lookupD, updateD, hk, hk', ih]

theorem lookupD_removeD_self (m : List (String × α)) (k : String) :
    lookupD (removeD m k) k = none := by
  induction m with
  | nil => simp [lookupD, removeD]
  | cons kv rest ih =>
    obtain ⟨a, b⟩ := kv
    by_cases h : a = k
    · simpa [removeD, List.filter_cons, h] using ih
    · simpa [removeD, List.filter_cons, h, lookupD] using ih

theorem lookupD_removeD_ne (m : List (String × α)) (k k' : String) (h : k' ≠ k) :
    lookupD (removeD m k) k' = lookupD m k' := by
  induction m with
  | nil => simp [lookupD, removeD]
  | cons kv rest ih =>
    obtain ⟨a, b⟩ := kv
    by_cases hk : a = k
    · subst hk
      have hne : ¬(a = k') := fun hh => h hh.symm
      simpa [removeD, List.filter_cons, lookupD, hne] using ih
    · by_cases hk' : a = k'
      · simp [removeD, List.filter_cons, hk, hk', lookupD, h]
      · simpa [removeD, List.filter_cons, hk, hk', lookupD] using ih

theorem updateD_existing_id (m : List (String × α)) (k : String) (v : α) (d : α)
    (h : lookupD m k = some v) : updateD m k (fun o => o.getD d) = m := by
  induction m with
  | nil => simp [lookupD] at h
  | cons kv rest ih =>
    obtain ⟨a, b⟩ := kv
    by_cases hk : a = k
    · subst hk
      simp [updateD]
    · simp [lookupD, hk] at h
      simp [updateD, hk, ih h]

theorem mem_insertS (s : List String) (x y : String) :
    y ∈ insertS s x ↔ y = x ∨ y ∈ s := by
  unfold insertS
  by_cases h : x ∈ s
  · simp [h]
    intro hy; rw [hy] at *; exact h
  · simp [h, List.mem_cons]

theorem mem_removeS (s : List String) (x y : String) :
    y ∈ removeS s x ↔ y ∈ s ∧ y ≠ x := by
  simp [removeS, List.mem_filter]

end MapLemmas

/-- Per-package-name bookkeeping record (`DependencyInfo` in
`package_resolution.rs`). `requirements` maps a requirement source (`""`
for root dependencies, otherwise a package name) to the range it imposes. -/
structure DependencyInfo where
  usingPkg : Option PackageInfo
  current : Option Version
  requirements : List (String × VersionRange)
  dependencies : List String
  modern_packages : List String
  legacy_packages : List String
  allow_pre : Bool
  touched : Bool

/-- Default-constructed entry (`#[derive(Default)]` on `DependencyInfo`). -/
def DependencyInfo.default : DependencyInfo :=
  { usingPkg := none, current := none, requirements := [], dependencies := []
    modern_packages := [], legacy_packages := [], allow_pre := false, touched := false }

instance : Inhabited DependencyInfo := ⟨DependencyInfo.default⟩

/-- `DependencyInfo::new_dependency`: a fresh entry holding one root
requirement edge under the `""` key. -/
def DependencyInfo.new_dependency (version_range : VersionRange) (allow_pre : Bool) :
    DependencyInfo :=
  { usingPkg := none, current := none, requirements := [("", version_range)]
    dependencies := [], modern_packages := [], legacy_packages := []
    allow_pre := allow_pre, touched := false }

/-- `DependencyInfo::add_range`: insert/replace one requirement edge and
mark the entry touched. -/
def DependencyInfo.add_range (self : DependencyInfo) (source : String)
    (range : VersionRange) : DependencyInfo :=
  { self with
    requirements := updateD self.requirements source (fun _ => range)
    touched := true }

/-- `DependencyInfo::remove_range`: remove one requirement edge and mark
the entry touched. -/
def DependencyInfo.remove_range (self : DependencyInfo) (source : String) : DependencyInfo :=
  { self with requirements := removeD self.requirements source, touched := true }

/-- `DependencyInfo::add_modern_package`: insert one legacy-supersession
edge and mark the entry touched. -/
def DependencyInfo.add_modern_package (self : DependencyInfo) (modern : String) :
    DependencyInfo :=
  { self with modern_packages := insertS self.modern_packages modern, touched := true }

/-- `DependencyInfo::remove_modern_package`: remove one legacy-supersession
edge and mark the entry touched. -/
def DependencyInfo.remove_modern_package (self : DependencyInfo) (modern : String) :
    DependencyInfo :=
  { self with modern_packages := removeS self.modern_packages modern, touched := true }

/-- `DependencyInfo::is_legacy`: true iff `modern_packages` is non-empty. -/
def DependencyInfo.is_legacy (self : DependencyInfo) : Bool :=
  !self.modern_packages.isEmpty

/-- `DependencyInfo::set_using_info`: record an already-resolved version
and its dependency set for a lock-seeded entry; widens `allow_pre` when the
version itself is a prerelease. -/
def DependencyInfo.set_using_info (self : DependencyInfo) (version : Version)
    (dependencies : List String) : DependencyInfo :=
  { self with
    allow_pre := self.allow_pre || !version.pre.isEmpty
    current := some version
    dependencies := dependencies }

/-- The pending worklist (`PackageQueue`): a `VecDeque` used as a stack,
listed front-to-back (`push_back` appends, `pop_back` pops the end). -/
abbrev PackageQueue : Type := List PackageInfo

/-- `PackageQueue::next_package`: `pop_back` — removes and returns the most
recently pushed record. -/
def next_package : PackageQueue → Option (PackageInfo × PackageQueue)
  | [] => none
  | x :: rest =>
    match next_package rest with
    | none => some (x, [])
    | some (y, rest') => some (y, x :: rest')

/-- `PackageQueue::find_pending_package`: first record with the given name,
scanning front-to-back. -/
def find_pending_package (q : PackageQueue) (name : String) : Option PackageInfo :=
  List.find? (fun x => x.name == name) q

/-- `PackageQueue::add_pending_package`: retain all records of other names,
then `push_back` the new record. -/
def add_pending_package (q : PackageQueue) (package : PackageInfo) : PackageQueue :=
  List.filter (fun x => x.name ≠ package.name) q ++ [package]

/-- The entry table: package name → `DependencyInfo`. -/
abbrev DepMap : Type := List (String × DependencyInfo)

/-- The resolution context (`ResolutionContext`): global prerelease flag,
pending worklist, and the entry table. -/
structure ResolutionContext where
  allow_prerelease : Bool
  pending_queue : PackageQueue
  dependencies : DepMap

/-- `ResolutionContext::new`: build the queue from the initial candidates
and force `allow_pre` on for every candidate's entry (created on demand). -/
def ResolutionContext.new (allow_prerelease : Bool) (packages : List PackageInfo) :
    ResolutionContext :=
  { allow_prerelease := allow_prerelease
    pending_queue := packages
    dependencies := packages.foldl
      (fun m pkg => updateD m pkg.name
        (fun o => { o.getD DependencyInfo.default with allow_pre := true })) [] }

/-- `ResolutionContext::add_root_dependency`: `HashMap::insert` — the entry
for `name` is replaced wholesale by a fresh root entry. -/
def ResolutionContext.add_root_dependency (self : ResolutionContext) (name : String)
    (range : VersionRange) (allow_pre : Bool) : ResolutionContext :=
  { self with
    dependencies :=
      updateD self.dependencies name (fun _ => DependencyInfo.new_dependency range allow_pre) }

/-- Entry transformer used when seeding a locked dependency's own entry. -/
def lockedSet (locked : LockedDependencyInfo) (o : Option DependencyInfo) : DependencyInfo :=
  (o.getD DependencyInfo.default).set_using_info locked.version
    (locked.dependencies.map (fun dr => dr.1))

/-- Entry transformer recording a requirement edge from a locked package. -/
def lockedReq (locked : LockedDependencyInfo) (dr : String × VersionRange)
    (o : Option DependencyInfo) : DependencyInfo :=
  let e := o.getD DependencyInfo.default
  { e with requirements := updateD e.requirements locked.name (fun _ => dr.2) }

/-- Entry transformer recording a modern (supersession) edge from a locked
package. -/
def lockedMod (locked : LockedDependencyInfo) (_legacy : String)
    (o : Option DependencyInfo) : DependencyInfo :=
  let e := o.getD DependencyInfo.default
  { e with modern_packages := insertS e.modern_packages locked.name }

/-- Entry transformer replacing the legacy list of the locked entry with
the one found in the environment. -/
def lockedLeg (pkg : PackageInfo) (o : Option DependencyInfo) : DependencyInfo :=
  { o.getD DependencyInfo.default with legacy_packages := pkg.legacy_packages }

/-- `ResolutionContext::add_locked_dependency`: seed one locked dependency —
`set_using_info` on its own entry, copy the environment record's legacy list
and add the reverse modern edges when the exact version is found, then add a
requirement edge (raw `HashMap::insert`, no touch) for each recorded
dependency. -/
def ResolutionContext.add_locked_dependency (self : ResolutionContext)
    (locked : LockedDependencyInfo) (env : PackageCollection) : ResolutionContext :=
  let deps1 := updateD self.dependencies locked.name (lockedSet locked)
  let deps2 :=
    match env.find_package_by_name locked.name
        (VersionSelector.specific_version locked.version) with
    | none => deps1
    | some pkg =>
      let deps1a := updateD deps1 locked.name (lockedLeg pkg)
      pkg.legacy_packages.foldl
        (fun m legacy => updateD m legacy (lockedMod locked legacy)) deps1a
  let deps3 := locked.dependencies.foldl
    (fun m dr => updateD m dr.1 (lockedReq locked dr)) deps2
  { self with dependencies := deps3 }

/-- Entry transformer adding/replacing one requirement edge from the
installed package. -/
def addRangeT (p : PackageInfo) (dr : String × VersionRange)
    (o : Option DependencyInfo) : DependencyInfo :=
  (o.getD DependencyInfo.default).add_range p.name dr.2

/-- Entry transformer adding one modern (supersession) edge from the
installed package. -/
def addModernT (p : PackageInfo) (_legacy : String)
    (o : Option DependencyInfo) : DependencyInfo :=
  (o.getD DependencyInfo.default).add_modern_package p.name

/-- Entry update performed by `add_package` on the installed package's own
entry: mark touched, set `current`/`using`, and swap in the new
dependency-name set and legacy list. -/
def installEntry (package : PackageInfo) (o : Option DependencyInfo) : DependencyInfo :=
  { o.getD DependencyInfo.default with
    touched := true
    current := some package.version
    usingPkg := some package
    dependencies := package.vpm_dependencies.map (fun dr => dr.1)
    legacy_packages := package.legacy_packages }

/-- Edge-retraction loop of `add_package`: for each name in `L`, look up
its entry with `get_mut(..).unwrap()` — modelled as returning `none` (the
panic) when the entry is absent — and rewrite the entry through `t`. -/
def guardedFold {α : Type} (t : α → α) (d0 : α) :
    List String → Option (List (String × α)) → Option (List (String × α))
  | [], acc => acc
  | dep :: rest, acc =>
    match acc with
    | none => none
    | some m =>
      if (lookupD m dep).isSome then
        guardedFold t d0 rest (some (updateD m dep (fun o => t (o.getD d0))))
      else none

/-- `ResolutionContext::add_package`: install one Package Record. Returns
`none` when one of the `get_mut(..).unwrap()` calls on a stale edge target
would panic; otherwise `some (accepted, new context)`, where a legacy entry
is rejected without mutation (`false`). The old dependency-name set and
legacy list are swapped out and their edges retracted before the new ones
are added. -/
def ResolutionContext.add_package (self : ResolutionContext) (package : PackageInfo) :
    Option (Bool × ResolutionContext) :=
  let deps0 := updateD self.dependencies package.name (fun o => o.getD DependencyInfo.default)
  let entry := (lookupD deps0 package.name).getD DependencyInfo.default
  if entry.is_legacy then
    some (false, { self with dependencies := deps0 })
  else
    let old_dependencies := entry.dependencies
    let old_legacy_packages := entry.legacy_packages
    let deps1 := updateD deps0 package.name (installEntry package)
    let step1 : Option DepMap :=
      guardedFold (fun e => e.remove_range package.name) DependencyInfo.default
        old_dependencies (some deps1)
    match step1 with
    | none => none
    | some m1 =>
      let m2 := package.vpm_dependencies.foldl
        (fun m dr => updateD m dr.1 (addRangeT package dr)) m1
      let step2 : Option DepMap :=
        guardedFold (fun e => e.remove_modern_package package.name) DependencyInfo.default
          old_legacy_packages (some m2)
      match step2 with
      | none => none
      | some m3 =>
        let m4 := package.legacy_packages.foldl
          (fun m legacy => updateD m legacy (addModernT package legacy)) m3
        some (true, { self with dependencies := m4 })

/-- `ResolutionContext::should_add_package`: decide whether a dependency
must be fetched. `none` models the panic of the unwrapped entry lookup;
legacy entries are never fetched; otherwise a matching pending record, or —
only when no pending record exists — a matching current version, answers
"no fetch needed". -/
def ResolutionContext.should_add_package (self : ResolutionContext) (name : String)
    (range : VersionRange) : Option Bool :=
  match lookupD self.dependencies name with
  | none => none
  | some entry =>
    if entry.is_legacy then some false
    else
      let allow_prerelease := entry.allow_pre || self.allow_prerelease
      match find_pending_package self.pending_queue name with
      | some pending => some (!(range.match_pre pending.version allow_prerelease))
      | none =>
        match entry.current with
        | some version => some (!(range.match_pre version allow_prerelease))
        | none => some true

/-- The result triple (`PackageResolutionResult`): packages to add, the
conflict map (package name → requiring sources), and discovered legacy
package names. -/
structure PackageResolutionResult where
  new_packages : List PackageInfo
  conflicts : List (String × List String)
  found_legacy_packages : List String

/-- One requirement check of the conflict pass: record the requiring source
under the package name when its range does not match the current version. -/
def conflictAdd (name : String) (version : Version) (allow : Bool)
    (conflicts : List (String × List String)) (sr : String × VersionRange) :
    List (String × List String) :=
  if !(sr.2.match_pre version allow) then
    updateD conflicts name (fun o => o.getD [] ++ [sr.1])
  else conflicts

/-- One entry of the conflict pass: touched, non-legacy entries with a
current version contribute their failing requirement edges. -/
def conflictStep (allow_prerelease : Bool)
    (conflicts : List (String × List String)) (ni : String × DependencyInfo) :
    List (String × List String) :=
  if !ni.2.is_legacy && ni.2.touched then
    match ni.2.current with
    | some version =>
      ni.2.requirements.foldl
        (conflictAdd ni.1 version (ni.2.allow_pre || allow_prerelease)) conflicts
    | none => conflicts
  else conflicts

/-- `ResolutionContext::build_result`: single pass over all entries —
collect conflicts of touched, non-legacy entries with a current version,
names of legacy entries, and installed records of non-legacy entries. -/
def ResolutionContext.build_result (self : ResolutionContext) : PackageResolutionResult :=
  let conflicts := self.dependencies.foldl (conflictStep self.allow_prerelease) []
  let found_legacy_packages :=
    (self.dependencies.filter (fun ni => ni.2.is_legacy)).map (fun ni => ni.1)
  let new_packages :=
    (self.dependencies.filter (fun ni => !ni.2.is_legacy)).filterMap (fun ni => ni.2.usingPkg)
  { new_packages := new_packages
    conflicts := conflicts
    found_legacy_packages := found_legacy_packages }

/-- Root-dependency preprocessing in `collect_adding_packages`
(lines 329-347): an exact single version becomes an "at or after" range
whose floor is lowered to the locked version when the locked version is
strictly smaller; otherwise the declared range is used as-is. Returns
`(name, range, allow_pre)`. -/
def rootDependencyCompute (get_locked : String → Option LockedDependencyInfo)
    (name : String) (dependency : DependencyRange) : String × VersionRange × Bool :=
  match dependency.as_single_version with
  | some v =>
    match get_locked name with
    | some locked =>
      let allow_pre := v.is_pre || !locked.version.pre.isEmpty
      let min_ver := if Version.lt locked.version v then locked.version else v
      (name, VersionRange.same_or_later min_ver, allow_pre)
    | none => (name, VersionRange.same_or_later v, v.is_pre)
  | none => (name, dependency.as_range, dependency.as_range.contains_pre)

/-- Seeding phase of `collect_adding_packages`: create the context from the
initial candidates, add every root dependency, then every locked
dependency. -/
def seedContext (dependencies : List (String × DependencyRange))
    (locked_dependencies : List LockedDependencyInfo)
    (get_locked : String → Option LockedDependencyInfo)
    (env : PackageCollection) (packages : List PackageInfo)
    (allow_prerelease : Bool) : ResolutionContext :=
  let ctx0 := ResolutionContext.new allow_prerelease packages
  let root_dependencies :=
    dependencies.map (fun nd => rootDependencyCompute get_locked nd.1 nd.2)
  let ctx1 := root_dependencies.foldl
    (fun c nra => c.add_root_dependency nra.1 nra.2.1 nra.2.2) ctx0
  locked_dependencies.foldl (fun c l => c.add_locked_dependency l env) ctx1

/-- Dependency scan of one accepted package in the driver loop: for each
declared `(dependency, range)`, consult `should_add_package`; on a fetch,
try the platform-constrained environment lookup, then the unconstrained
one; fail with `DependencyNotFound` if both miss, else push the found
record. `none` models the panic of `should_add_package`'s unwrap. -/
def processDeps (env : PackageCollection) (unity_version : Option UnityVersion)
    (deps : List (String × VersionRange)) (ctx : ResolutionContext) :
    Option (Except AddPackageErr ResolutionContext) :=
  match deps with
  | [] => some (Except.ok ctx)
  | dr :: rest =>
    match ctx.should_add_package dr.1 dr.2 with
    | none => none
    | some false => processDeps env unity_version rest ctx
    | some true =>
      match (env.find_package_by_name dr.1 (VersionSelector.range_for unity_version dr.2)).or
          (env.find_package_by_name dr.1 (VersionSelector.range_for none dr.2)) with
      | none => some (Except.error (AddPackageErr.DependencyNotFound dr.1))
      | some found =>
        processDeps env unity_version rest
          { ctx with pending_queue := add_pending_package ctx.pending_queue found }

/-- The driver loop of `collect_adding_packages`, with explicit fuel
(`none` when the fuel runs out or a modelled panic occurs): pop the most
recently pushed record, install it, and scan its dependencies. -/
def runLoop (env : PackageCollection) (unity_version : Option UnityVersion) :
    Nat → ResolutionContext → Option (Except AddPackageErr ResolutionContext)
  | 0, _ => none
  | fuel + 1, ctx =>
    match next_package ctx.pending_queue with
    | none => some (Except.ok ctx)
    | some (x, q) =>
      let ctx1 := { ctx with pending_queue := q }
      match ctx1.add_package x with
      | none => none
      | some (false, ctx2) => runLoop env unity_version fuel ctx2
      | some (true, ctx2) =>
        match processDeps env unity_version x.vpm_dependencies ctx2 with
        | none => none
        | some (Except.error e) => some (Except.error e)
        | some (Except.ok ctx3) => runLoop env unity_version fuel ctx3

/-- State of the driver loop after `n` completed, successful iterations
(`none` when the loop would already have terminated, failed, or panicked
within those iterations). -/
def iterOk (env : PackageCollection) (unity_version : Option UnityVersion) :
    Nat → ResolutionContext → Option ResolutionContext
  | 0, ctx => some ctx
  | n + 1, ctx =>
    match next_package ctx.pending_queue with
    | none => none
    | some (x, q) =>
      let ctx1 := { ctx with pending_queue := q }
      match ctx1.add_package x with
      | none => none
      | some (false, ctx2) => iterOk env unity_version n ctx2
      | some (true, ctx2) =>
        match processDeps env unity_version x.vpm_dependencies ctx2 with
        | none => none
        | some (Except.error _) => none
        | some (Except.ok ctx3) => iterOk env unity_version n ctx3

/-- `collect_adding_packages`: the exposed resolve operation — seed, run
the driver loop, build the result. `none` models non-termination within
`fuel` iterations or a modelled panic. -/
def collect_adding_packages (dependencies : List (String × DependencyRange))
    (locked_dependencies : List LockedDependencyInfo)
    (get_locked : String → Option LockedDependencyInfo)
    (unity_version : Option UnityVersion) (env : PackageCollection)
    (packages : List PackageInfo) (allow_prerelease : Bool) (fuel : Nat) :
    Option (Except AddPackageErr PackageResolutionResult) :=
  match runLoop env unity_version fuel
      (seedContext dependencies locked_dependencies get_locked env packages allow_prerelease) with
  | none => none
  | some (Except.error e) => some (Except.error e)
  | some (Except.ok ctx) => some (Except.ok ctx.build_result)

theorem next_package_append_single (l : List PackageInfo) (x : PackageInfo) :
    next_package (l ++ [x]) = some (x, l) := by
  induction l with
  | nil => simp [next_package]
  | cons a rest ih => simp [next_package, ih]

theorem next_package_eq_none (q : PackageQueue) :
    next_package q = none ↔ q = [] := by
  cases q with
  | nil => simp [next_package]
  | cons a rest =>
    cases h : next_package rest <;> simp [next_package, h]

theorem next_package_eq_append (q : PackageQueue) (x : PackageInfo) (q' : PackageQueue)
    (h : next_package q = some (x, q')) : q = q' ++ [x] := by
  induction q generalizing x q' with
  | nil => simp [next_package] at h
  | cons a rest ih =>
    unfold next_package at h
    cases hr : next_package rest with
    | none =>
      rw [hr] at h
      simp at h
      obtain ⟨h1, h2⟩ := h
      subst h1
      have hrest := (next_package_eq_none rest).mp hr
      subst hrest
      subst h2
      rfl
    | some p =>
      rw [hr] at h
      simp at h
      obtain ⟨h1, h2⟩ := h
      subst h1
      have := ih p.1 p.2 hr
      rw [← h2, this]
      rfl

/-- Pending worklist names are pairwise distinct. -/
def NoDupName (q : PackageQueue) : Prop :=
  (List.map PackageInfo.name q).Nodup

instance (q : PackageQueue) : Decidable (NoDupName q) := by
  unfold NoDupName
  infer_instance

theorem filterEq_of_filterNe (q : PackageQueue) (n : String) :
    List.filter (fun r => r.name = n) (List.filter (fun r => r.name ≠ n) q) = [] := by
  induction q with
  | nil => simp
  | cons a rest ih =>
    by_cases h : a.name = n
    · simp [List.filter_cons, h, ih]
    · simp [List.filter_cons, h, ih]

theorem name_notMem_filterNe (q : PackageQueue) (n : String) :
    n ∉ List.map PackageInfo.name (List.filter (fun r => r.name ≠ n) q) := by
  intro hmem
  obtain ⟨x, hx, hname⟩ := List.mem_map.mp hmem
  have := (List.mem_filter.mp hx).2
  simp [hname] at this

theorem noDupName_filter (q : PackageQueue) (f : PackageInfo → Bool)
    (h : NoDupName q) : NoDupName (List.filter f q) := by
  unfold NoDupName at *
  exact ((List.filter_sublist q).map PackageInfo.name).nodup h

/-- C4: after `add_pending_package` with a record named `N`, exactly one
pending record named `N` exists and it is the most recently inserted one;
`next_package` pops the most recently pushed record; name-uniqueness of the
worklist is preserved by both pushing and popping, and among pushes for the
same name the most recent one is the one popped. -/
theorem C4_worklist_dedup (q : PackageQueue) (p : PackageInfo) (x : PackageInfo)
    (q' : PackageQueue) :
    (List.filter (fun r => r.name = p.name) (add_pending_package q p) = [p]) ∧
    (next_package (add_pending_package q p)
      = some (p, List.filter (fun r => r.name ≠ p.name) q)) ∧
    (NoDupName q → NoDupName (add_pending_package q p)) ∧
    (next_package q = some (x, q') → NoDupName q → NoDupName q') := by
  refine ⟨?_, ?_, ?_, ?_⟩
  · unfold add_pending_package
    rw [List.filter_append, filterEq_of_filterNe]
    simp
  · unfold add_pending_package
    exact next_package_append_single _ _
  · intro h
    unfold add_pending_package NoDupName
    rw [List.map_append]
    rw [List.nodup_append]
    refine ⟨noDupName_filter q _ h, by simp, ?_⟩
    intro a ha hb
    simp at hb
    rw [hb] at ha
    exact name_notMem_filterNe q p.name ha
  · intro h hnd
    have hq := next_package_eq_append q x q' h
    subst hq
    unfold NoDupName at *
    rw [List.map_append] at hnd
    exact (List.nodup_append.mp hnd).1

/-- Sample version, range and package records used to witness the claims
on concrete inputs. -/
def vOne : Version := ⟨1, 0, 0, []⟩

def vTwo : Version := ⟨2, 0, 0, []⟩

def rangeAny : VersionRange := ⟨fun _ _ => true, false⟩

def rangeNone : VersionRange := ⟨fun _ _ => false, false⟩

def pkgA1 : PackageInfo := ⟨"A", vOne, [], []⟩

def pkgA2 : PackageInfo := ⟨"A", vTwo, [], []⟩

def pkgB1 : PackageInfo := ⟨"B", vOne, [], []⟩

theorem C4_worklist_dedup_witness :
    (List.filter (fun r => r.name = pkgA2.name) (add_pending_package [pkgB1, pkgA1] pkgA2)
      = [pkgA2]) ∧
    (next_package (add_pending_package [pkgB1, pkgA1] pkgA2) = some (pkgA2, [pkgB1])) ∧
    (NoDupName [pkgB1, pkgA1] ∧ NoDupName (add_pending_package [pkgB1, pkgA1] pkgA2)) ∧
    (next_package [pkgB1, pkgA1] = some (pkgA1, [pkgB1]) ∧ NoDupName [pkgB1]) := by
  have h := C4_worklist_dedup [pkgB1, pkgA1] pkgA2 pkgA1 [pkgB1]
  refine ⟨h.1, ?_, ⟨by decide, h.2.2.1 (by decide)⟩, ⟨by rfl, h.2.2.2 (by rfl) (by decide)⟩⟩
  have h2 := h.2.1
  simpa [pkgB1, pkgA1, pkgA2] using h2

/-- Sample legacy entry and contexts used by witnesses. -/
def entryLegacyM : DependencyInfo :=
  { DependencyInfo.default with modern_packages := ["M"] }

def ctxLegacyA : ResolutionContext :=
  ⟨false, [], [("A", entryLegacyM)]⟩

/-- C9: `add_package` called for a name whose entry is legacy returns
`false` and leaves the whole context (every entry, every field) unchanged. -/
theorem C9_legacy_reject (ctx : ResolutionContext) (p : PackageInfo) (e : DependencyInfo)
    (hlook : lookupD ctx.dependencies p.name = some e) (hleg : e.is_legacy = true) :
    ctx.add_package p = some (false, ctx) := by
  unfold ResolutionContext.add_package
  rw [updateD_existing_id _ _ _ _ hlook]
  simp [hlook, hleg]

theorem C9_legacy_reject_witness :
    lookupD ctxLegacyA.dependencies pkgA2.name = some entryLegacyM ∧
    entryLegacyM.is_legacy = true ∧
    ctxLegacyA.add_package pkgA2 = some (false, ctxLegacyA) :=
  ⟨rfl, rfl, C9_legacy_reject ctxLegacyA pkgA2 entryLegacyM rfl rfl⟩

/-- C5: for a non-legacy entry, `should_add_package` answers `false` when a
pending record for the name matches the range under the effective
prerelease allowance (entry `allow_pre` OR global flag), `false` when no
pending record exists and the current version matches, and `true`
otherwise — in particular a non-matching pending record yields `true`
without consulting the current version. -/
theorem C5_should_add_decision (ctx : ResolutionContext) (name : String)
    (range : VersionRange) (entry : DependencyInfo)
    (hlook : lookupD ctx.dependencies name = some entry)
    (hleg : entry.is_legacy = false) :
    (∀ pending, find_pending_package ctx.pending_queue name = some pending →
      range.match_pre pending.version (entry.allow_pre || ctx.allow_prerelease) = true →
      ctx.should_add_package name range = some false) ∧
    (∀ pending, find_pending_package ctx.pending_queue name = some pending →
      range.match_pre pending.version (entry.allow_pre || ctx.allow_prerelease) = false →
      ctx.should_add_package name range = some true) ∧
    (find_pending_package ctx.pending_queue name = none →
      ∀ v, entry.current = some v →
      range.match_pre v (entry.allow_pre || ctx.allow_prerelease) = true →
      ctx.should_add_package name range = some false) ∧
    (find_pending_package ctx.pending_queue name = none →
      (∀ v, entry.current = some v →
        range.match_pre v (entry.allow_pre || ctx.allow_prerelease) = false) →
      ctx.should_add_package name range = some true) := by
  unfold ResolutionContext.should_add_package
  rw [hlook]
  refine ⟨?_, ?_, ?_, ?_⟩
  · intro pending hp hm
    simp [hleg, hp, hm]
  · intro pending hp hm
    simp [hleg, hp, hm]
  · intro hp v hc hm
    simp [hleg, hp, hc, hm]
  · intro hp hall
    cases hc : entry.current with
    | none => simp [hleg, hp, hc]
    | some v => simp [hleg, hp, hc, hall v hc]

/-- Sample context for the C5 witness: entry "A" is non-legacy, a pending
record `pkgA1` is queued, and `rangeAny` matches it. -/
def ctxPendingA : ResolutionContext :=
  ⟨false, [pkgA1], [("A", DependencyInfo.default)]⟩

theorem C5_should_add_decision_witness :
    lookupD ctxPendingA.dependencies "A" = some DependencyInfo.default ∧
    DependencyInfo.default.is_legacy = false ∧
    find_pending_package ctxPendingA.pending_queue "A" = some pkgA1 ∧
    rangeAny.match_pre pkgA1.version
      (DependencyInfo.default.allow_pre || ctxPendingA.allow_prerelease) = true ∧
    ctxPendingA.should_add_package "A" rangeAny = some false :=
  ⟨rfl, rfl, rfl, rfl,
    (C5_should_add_decision ctxPendingA "A" rangeAny DependencyInfo.default rfl rfl).1
      pkgA1 rfl rfl⟩

/-- C2: `is_legacy()` holds iff `modern_packages` is non-empty; every
installed record in `build_result`'s output comes from a non-legacy entry
(so no legacy entry contributes one); and `should_add_package` never
requests a fetch for a name whose entry is legacy. -/
theorem C2_legacy_exclusivity :
    (∀ info : DependencyInfo, info.is_legacy = true ↔ info.modern_packages ≠ []) ∧
    (∀ (ctx : ResolutionContext) (p : PackageInfo),
      p ∈ ctx.build_result.new_packages →
      ∃ ni ∈ ctx.dependencies, ni.2.is_legacy = false ∧ ni.2.usingPkg = some p) ∧
    (∀ (ctx : ResolutionContext) (name : String) (range : VersionRange)
      (entry : DependencyInfo), lookupD ctx.dependencies name = some entry →
      entry.is_legacy = true → ctx.should_add_package name range = some false) := by
  refine ⟨?_, ?_, ?_⟩
  · intro info
    unfold DependencyInfo.is_legacy
    cases h : info.modern_packages with
    | nil => simp [h]
    | cons a rest => simp [h]
  · intro ctx p hmem
    unfold ResolutionContext.build_result at hmem
    simp only [List.mem_filterMap, List.mem_filter] at hmem
    obtain ⟨ni, ⟨hmem2, hleg⟩, hus⟩ := hmem
    exact ⟨ni, hmem2, by simpa using hleg, hus⟩
  · intro ctx name range entry hlook hleg
    unfold ResolutionContext.should_add_package
    rw [hlook]
    simp [hleg]

/-- Sample context for the C2 witness: "A" installed and non-legacy, "B"
legacy. -/
def ctxInstalledA : ResolutionContext :=
  ⟨false, [], [("A", { DependencyInfo.default with usingPkg := some pkgA1 }),
               ("B", entryLegacyM)]⟩

theorem C2_legacy_exclusivity_witness :
    (entryLegacyM.is_legacy = true ↔ entryLegacyM.modern_packages ≠ []) ∧
    (pkgA1 ∈ ctxInstalledA.build_result.new_packages ∧
      ∃ ni ∈ ctxInstalledA.dependencies, ni.2.is_legacy = false ∧ ni.2.usingPkg = some pkgA1) ∧
    (lookupD ctxInstalledA.dependencies "B" = some entryLegacyM ∧
      ctxInstalledA.should_add_package "B" rangeAny = some false) := by
  refine ⟨C2_legacy_exclusivity.1 entryLegacyM, ⟨?_, ?_⟩, rfl, ?_⟩
  · show pkgA1 ∈ [pkgA1]
    simp
  · exact C2_legacy_exclusivity.2.1 ctxInstalledA pkgA1 (by show pkgA1 ∈ [pkgA1]; simp)
  · exact C2_legacy_exclusivity.2.2 ctxInstalledA "B" rangeAny entryLegacyM rfl rfl

/-- Locked record at version 2.0.0 used for the C1 counterexample. -/
def lockedA2 : LockedDependencyInfo := ⟨"A", vTwo, []⟩

def getLockedA2 : String → Option LockedDependencyInfo := fun _ => some lockedA2

/-- Root dependency declaring exactly version 1.0.0. -/
def depExactOne : DependencyRange := ⟨some vOne, rangeAny⟩

/-- C1 counterexample: the locked version 2.0.0 is strictly greater than
the requested exact version 1.0.0, yet the root range built by
`collect_adding_packages` is "at or after 1.0.0" (it admits 1.0.0), not
"at or after 2.0.0" as the claim demands — the code lowers the floor to
`min(requested, locked)`, it never raises it. -/
theorem C1_floor_counterexample :
    Version.lt vOne lockedA2.version = true ∧
    (rootDependencyCompute getLockedA2 "A" depExactOne).2.1.match_pre vOne true = true ∧
    (VersionRange.same_or_later lockedA2.version).match_pre vOne true = false ∧
    (rootDependencyCompute getLockedA2 "A" depExactOne).2.1
      ≠ VersionRange.same_or_later lockedA2.version := by
  refine ⟨by decide, by decide, by decide, ?_⟩
  intro h
  have h1 : (rootDependencyCompute getLockedA2 "A" depExactOne).2.1.match_pre vOne true
      = true := by decide
  rw [h] at h1
  have h3 : (VersionRange.same_or_later lockedA2.version).match_pre vOne true = false := by
    decide
  rw [h1] at h3
  exact Bool.noConfusion h3

/-- C1 amended: for a root dependency naming an exact version `v` with a
locked record for the same name, the effective floor of the resulting
"at or after" root range is the smaller of `v` and the locked version:
when the locked version is not strictly smaller (in particular when it is
strictly greater), the floor is the requested `v`; only a strictly smaller
locked version replaces it. -/
theorem C1_floor_amended (get_locked : String → Option LockedDependencyInfo)
    (name : String) (dep : DependencyRange) (v : Version)
    (locked : LockedDependencyInfo)
    (hsingle : dep.as_single_version = some v) (hlock : get_locked name = some locked) :
    (Version.lt locked.version v = false →
      (rootDependencyCompute get_locked name dep).2.1 = VersionRange.same_or_later v) ∧
    (Version.lt locked.version v = true →
      (rootDependencyCompute get_locked name dep).2.1
        = VersionRange.same_or_later locked.version) := by
  unfold rootDependencyCompute
  rw [hsingle, hlock]
  constructor <;> intro h <;> simp [h]

theorem C1_floor_amended_witness :
    depExactOne.as_single_version = some vOne ∧
    getLockedA2 "A" = some lockedA2 ∧
    Version.lt lockedA2.version vOne = false ∧
    (rootDependencyCompute getLockedA2 "A" depExactOne).2.1
      = VersionRange.same_or_later vOne :=
  ⟨rfl, rfl, by decide,
    (C1_floor_amended getLockedA2 "A" depExactOne vOne lockedA2 rfl rfl).1 (by decide)⟩

section FoldLemmas

variable {α : Type} {β : Type} {γ : Type}

theorem lookupD_foldl_updateD_notMem (L : List β) (key : β → String)
    (f : β → Option α → α) (m : List (String × α)) (name : String)
    (h : ∀ x ∈ L, key x ≠ name) :
    lookupD (L.foldl (fun acc x => updateD acc (key x) (f x)) m) name = lookupD m name := by
  induction L generalizing m with
  | nil => rfl
  | cons x rest ih =>
    have hx : key x ≠ name := h x (by simp)
    have hrest : ∀ y ∈ rest, key y ≠ name := fun y hy => h y (by simp [hy])
    simp only [List.foldl_cons]
    rw [ih _ hrest, lookupD_updateD_ne _ _ _ _ (fun hh => hx hh.symm)]

theorem foldl_updateD_preserves (P : α → Prop) (L : List β) (key : β → String)
    (f : β → Option α → α) (hf : ∀ x a, P a → P (f x (some a)))
    (m : List (String × α)) (name : String) (a : α)
    (h : lookupD m name = some a) (ha : P a) :
    ∃ a', lookupD (L.foldl (fun acc x => updateD acc (key x) (f x)) m) name = some a' ∧ P a' := by
  induction L generalizing m a with
  | nil => exact ⟨a, h, ha⟩
  | cons x rest ih =>
    simp only [List.foldl_cons]
    by_cases hk : name = key x
    · subst hk
      refine ih _ (f x (some a)) ?_ (hf x a ha)
      rw [lookupD_updateD_self, h]
    · refine ih _ a ?_ ha
      rw [lookupD_updateD_ne _ _ _ _ hk, h]

theorem foldl_updateD_isSome_mono (L : List β) (key : β → String)
    (f : β → Option α → α) (m : List (String × α)) (name : String)
    (h : (lookupD m name).isSome = true) :
    (lookupD (L.foldl (fun acc x => updateD acc (key x) (f x)) m) name).isSome = true := by
  cases hl : lookupD m name with
  | none => rw [hl] at h; simp at h
  | some a =>
    obtain ⟨a', ha', _⟩ :=
      foldl_updateD_preserves (fun _ => True) L key f (fun _ _ _ => trivial) m name a hl trivial
    rw [ha']
    rfl

theorem foldl_updateD_mem_isSome (L : List β) (key : β → String)
    (f : β → Option α → α) (m : List (String × α)) (x : β) (hx : x ∈ L) :
    (lookupD (L.foldl (fun acc y => updateD acc (key y) (f y)) m) (key x)).isSome = true := by
  induction L generalizing m with
  | nil => cases hx
  | cons y rest ih =>
    simp only [List.foldl_cons]
    rcases List.mem_cons.mp hx with h | h
    · subst h
      apply foldl_updateD_isSome_mono
      rw [lookupD_updateD_self]
      rfl
    · exact ih (updateD m (key y) (f y)) h

theorem lookupD_foldl_updateD_nodupKeys (L : List (String × γ))
    (f : String × γ → Option α → α) (m : List (String × α)) (d : String) (c : γ)
    (hmem : (d, c) ∈ L) (hnd : (L.map Prod.fst).Nodup) :
    lookupD (L.foldl (fun acc x => updateD acc x.1 (f x)) m) d
      = some (f (d, c) (lookupD m d)) := by
  induction L generalizing m with
  | nil => cases hmem
  | cons x rest ih =>
    simp only [List.map_cons, List.nodup_cons] at hnd
    obtain ⟨hx_notin, hnd_rest⟩ := hnd
    simp only [List.foldl_cons]
    rcases List.mem_cons.mp hmem with h | h
    · subst h
      have hnotin : ∀ y ∈ rest, y.1 ≠ d := by
        intro y hy hcontra
        have hmem2 := List.mem_map_of_mem Prod.fst hy
        rw [hcontra] at hmem2
        exact hx_notin hmem2
      rw [lookupD_foldl_updateD_notMem rest Prod.fst f _ d hnotin, lookupD_updateD_self]
    · have hne : d ≠ x.1 := by
        intro hcontra
        apply hx_notin
        have := List.mem_map_of_mem Prod.fst h
        rw [← hcontra]
        exact this
      rw [ih (updateD m x.1 (f x)) h hnd_rest]
      rw [lookupD_updateD_ne _ _ _ _ hne]

end FoldLemmas

section GuardedFoldLemmas

variable {α : Type}

theorem guardedFold_none (t : α → α) (d0 : α) (L : List String) :
    guardedFold t d0 L none = none := by
  cases L <;> rfl

theorem guardedFold_success (t : α → α) (d0 : α) (L : List String) (m : List (String × α))
    (h : ∀ dep ∈ L, (lookupD m dep).isSome = true) :
    ∃ m', guardedFold t d0 L (some m) = some m' := by
  induction L generalizing m with
  | nil => exact ⟨m, rfl⟩
  | cons dep rest ih =>
    have hdep : (lookupD m dep).isSome = true := h dep (by simp)
    refine (ih (updateD m dep (fun o => t (o.getD d0))) ?_).imp ?_
    · intro d hd
      by_cases hdd : d = dep
      · subst hdd
        rw [lookupD_updateD_self]
        rfl
      · rw [lookupD_updateD_ne _ _ _ _ hdd]
        exact h d (by simp [hd])
    · intro m' hm'
      simpa [guardedFold, hdep] using hm'

theorem guardedFold_lookup_notMem (t : α → α) (d0 : α) (L : List String)
    (m m' : List (String × α)) (name : String)
    (hfold : guardedFold t d0 L (some m) = some m') (hname : name ∉ L) :
    lookupD m' name = lookupD m name := by
  induction L generalizing m with
  | nil =>
    simp [guardedFold] at hfold
    rw [hfold]
  | cons dep rest ih =>
    simp only [guardedFold] at hfold
    by_cases hg : (lookupD m dep).isSome = true
    · rw [if_pos hg] at hfold
      have hnr : name ∉ rest := fun hr => hname (by simp [hr])
      have hnd : name ≠ dep := fun hd => hname (by simp [hd])
      rw [ih _ hfold hnr, lookupD_updateD_ne _ _ _ _ hnd]
    · rw [if_neg hg] at hfold
      cases hfold

theorem guardedFold_lookup_mem (t : α → α) (d0 : α) (L : List String)
    (m m' : List (String × α)) (name : String)
    (ht : ∀ a, t (t a) = t a)
    (hfold : guardedFold t d0 L (some m) = some m') (hname : name ∈ L) :
    ∃ e, lookupD m name = some e ∧ lookupD m' name = some (t e) := by
  induction L generalizing m with
  | nil => cases hname
  | cons dep rest ih =>
    simp only [guardedFold] at hfold
    by_cases hg : (lookupD m dep).isSome = true
    · rw [if_pos hg] at hfold
      by_cases hnd : name = dep
      · subst hnd
        obtain ⟨e, he⟩ := Option.isSome_iff_exists.mp hg
        have hm1 : lookupD (updateD m name (fun o => t (o.getD d0))) name = some (t e) := by
          rw [lookupD_updateD_self, he]
          rfl
        by_cases hr : name ∈ rest
        · obtain ⟨e1, he1, he1'⟩ := ih _ hfold hr
          rw [hm1] at he1
          refine ⟨e, he, ?_⟩
          rw [he1']
          cases he1
          rw [ht]
        · rw [guardedFold_lookup_notMem t d0 rest _ _ name hfold hr, hm1]
          exact ⟨e, he, rfl⟩
      · have hr : name ∈ rest := by
          rcases List.mem_cons.mp hname with h | h
          · exact absurd h hnd
          · exact h
        obtain ⟨e1, he1, he1'⟩ := ih _ hfold hr
        rw [lookupD_updateD_ne _ _ _ _ hnd] at he1
        exact ⟨e1, he1, he1'⟩
    · rw [if_neg hg] at hfold
      cases hfold

theorem guardedFold_preserves (P : α → Prop) (t : α → α) (d0 : α) (L : List String)
    (m m' : List (String × α)) (name : String) (a : α)
    (hT : ∀ b, P b → P (t b))
    (hfold : guardedFold t d0 L (some m) = some m')
    (h : lookupD m name = some a) (ha : P a) :
    ∃ a', lookupD m' name = some a' ∧ P a' := by
  induction L generalizing m a with
  | nil =>
    simp [guardedFold] at hfold
    exact ⟨a, hfold ▸ h, ha⟩
  | cons dep rest ih =>
    simp only [guardedFold] at hfold
    by_cases hg : (lookupD m dep).isSome = true
    · rw [if_pos hg] at hfold
      by_cases hnd : name = dep
      · subst hnd
        refine ih _ (t a) hfold ?_ (hT a ha)
        rw [lookupD_updateD_self, h]
        rfl
      · refine ih _ a hfold ?_ ha
        rw [lookupD_updateD_ne _ _ _ _ hnd]
        exact h
    · rw [if_neg hg] at hfold
      cases hfold

theorem guardedFold_isSome_mono (t : α → α) (d0 : α) (L : List String)
    (m m' : List (String × α)) (name : String)
    (hfold : guardedFold t d0 L (some m) = some m')
    (h : (lookupD m name).isSome = true) :
    (lookupD m' name).isSome = true := by
  obtain ⟨a, ha⟩ := Option.isSome_iff_exists.mp h
  obtain ⟨a', ha', _⟩ :=
    guardedFold_preserves (fun _ => True) t d0 L m m' name a (fun _ _ => trivial) hfold ha trivial
  rw [ha']
  rfl

end GuardedFoldLemmas

section PointwiseFoldLemmas

universe uq

variable {α : Type} {β : Type} {δ : Sort uq}

theorem foldl_updateD_pointwise (q : Option α → δ) (L : List β) (key : β → String)
    (f : β → Option α → α) (hf : ∀ x o, q (some (f x o)) = q o)
    (m : List (String × α)) (name : String) :
    q (lookupD (L.foldl (fun acc x => updateD acc (key x) (f x)) m) name)
      = q (lookupD m name) := by
  induction L generalizing m with
  | nil => rfl
  | cons x rest ih =>
    simp only [List.foldl_cons]
    rw [ih]
    by_cases hk : name = key x
    · subst hk
      rw [lookupD_updateD_self, hf]
    · rw [lookupD_updateD_ne _ _ _ _ hk]

theorem guardedFold_pointwise (q : Option α → δ) (t : α → α) (d0 : α) (L : List String)
    (m m' : List (String × α))
    (hfold : guardedFold t d0 L (some m) = some m')
    (ht : ∀ o : Option α, q (some (t (o.getD d0))) = q o) (name : String) :
    q (lookupD m' name) = q (lookupD m name) := by
  induction L generalizing m with
  | nil =>
    simp [guardedFold] at hfold
    rw [hfold]
  | cons dep rest ih =>
    simp only [guardedFold] at hfold
    by_cases hg : (lookupD m dep).isSome = true
    · rw [if_pos hg] at hfold
      rw [ih _ hfold]
      by_cases hk : name = dep
      · subst hk
        rw [lookupD_updateD_self, ht]
      · rw [lookupD_updateD_ne _ _ _ _ hk]
    · rw [if_neg hg] at hfold
      cases hfold

theorem foldl_updateD_establish (P : α → Prop) (L : List β) (key : β → String)
    (f : β → Option α → α) (x0 : β) (hx0 : x0 ∈ L)
    (hEst : ∀ x o, key x = key x0 → P (f x o))
    (hPres : ∀ x a, P a → P (f x (some a)))
    (m : List (String × α)) :
    ∃ a', lookupD (L.foldl (fun acc x => updateD acc (key x) (f x)) m) (key x0) = some a'
      ∧ P a' := by
  induction L generalizing m with
  | nil => cases hx0
  | cons y rest ih =>
    simp only [List.foldl_cons]
    rcases List.mem_cons.mp hx0 with h | h
    · subst h
      refine foldl_updateD_preserves P rest key f hPres _ _ (f x0 (lookupD m (key x0))) ?_
        (hEst x0 _ rfl)
      rw [lookupD_updateD_self]
    · exact ih h _

end PointwiseFoldLemmas

theorem removeD_idem {α : Type} (m : List (String × α)) (k : String) :
    removeD (removeD m k) k = removeD m k := by
  induction m with
  | nil => rfl
  | cons kv rest ih =>
    by_cases h : kv.1 = k
    · simp [removeD, List.filter_cons, h]
    · simp [removeD, List.filter_cons, h]

theorem removeS_idem (s : List String) (x : String) :
    removeS (removeS s x) x = removeS s x := by
  induction s with
  | nil => rfl
  | cons y rest ih =>
    by_cases h : y = x
    · simp [removeS, List.filter_cons, h]
    · simp [removeS, List.filter_cons, h]

theorem remove_range_idem (e : DependencyInfo) (s : String) :
    (e.remove_range s).remove_range s = e.remove_range s := by
  unfold DependencyInfo.remove_range
  simp [removeD_idem]

theorem remove_modern_idem (e : DependencyInfo) (s : String) :
    (e.remove_modern_package s).remove_modern_package s = e.remove_modern_package s := by
  unfold DependencyInfo.remove_modern_package
  simp [removeS_idem]

/-- Requirement edge `source → target` as observed in a context: the range
that `s` currently imposes on `d`, if any. -/
def reqEdge (ctx : ResolutionContext) (d s : String) : Option VersionRange :=
  lookupD ((lookupD ctx.dependencies d).getD DependencyInfo.default).requirements s

/-- Modern (supersession) edge as observed in a context: does `s` currently
declare `d` as legacy? -/
def modernEdge (ctx : ResolutionContext) (d s : String) : Bool :=
  decide (s ∈ ((lookupD ctx.dependencies d).getD DependencyInfo.default).modern_packages)

/-- Inversion of a successful `add_package`: names the intermediate tables
of the retract/add passes. -/
theorem add_package_some_true_elim (ctx : ResolutionContext) (p : PackageInfo)
    (e : DependencyInfo) (ctx' : ResolutionContext)
    (hlook : lookupD ctx.dependencies p.name = some e)
    (h : ctx.add_package p = some (true, ctx')) :
    e.is_legacy = false ∧
    ∃ m1 m3 : DepMap,
      guardedFold (fun x => x.remove_range p.name) DependencyInfo.default e.dependencies
        (some (updateD ctx.dependencies p.name (installEntry p))) = some m1 ∧
      guardedFold (fun x => x.remove_modern_package p.name) DependencyInfo.default
        e.legacy_packages
        (some (p.vpm_dependencies.foldl
          (fun m dr => updateD m dr.1 (addRangeT p dr)) m1))
        = some m3 ∧
      ctx'.dependencies = p.legacy_packages.foldl
        (fun m legacy => updateD m legacy (addModernT p legacy)) m3 ∧
      ctx'.allow_prerelease = ctx.allow_prerelease ∧
      ctx'.pending_queue = ctx.pending_queue := by
  unfold ResolutionContext.add_package at h
  rw [updateD_existing_id _ _ _ _ hlook] at h
  simp only [hlook] at h
  by_cases hleg : e.is_legacy = true
  · rw [if_pos (by simpa using hleg)] at h
    simp at h
  · have hleg' : e.is_legacy = false := by
      cases hv : e.is_legacy
      · rfl
      · exact absurd hv hleg
    rw [if_neg (by simp [hleg'])] at h
    refine ⟨hleg', ?_⟩
    simp only [Option.getD_some] at h
    split at h
    · cases h
    · rename_i m1 hstep1
      split at h
      · cases h
      · rename_i m3 hstep2
        simp only [Option.some.injEq, Prod.mk.injEq, true_and] at h
        refine ⟨m1, m3, hstep1, hstep2, ?_, ?_, ?_⟩
        · rw [← h]
        · rw [← h]
        · rw [← h]

section EqFoldLemmas

variable {α : Type} {β : Type}

theorem lookupD_foldl_updateD_notMem_eq (L : List β) (key : β → String)
    (f : β → Option α → α) (m M : List (String × α)) (name : String)
    (hM : M = L.foldl (fun acc x => updateD acc (key x) (f x)) m)
    (h : ∀ x ∈ L, key x ≠ name) :
    lookupD M name = lookupD m name := by
  rw [hM]
  exact lookupD_foldl_updateD_notMem L key f m name h

theorem foldl_updateD_preserves_eq (P : α → Prop) (L : List β) (key : β → String)
    (f : β → Option α → α) (hf : ∀ x a, P a → P (f x (some a)))
    (m M : List (String × α)) (name : String) (a : α)
    (hM : M = L.foldl (fun acc x => updateD acc (key x) (f x)) m)
    (h : lookupD m name = some a) (ha : P a) :
    ∃ a', lookupD M name = some a' ∧ P a' := by
  rw [hM]
  exact foldl_updateD_preserves P L key f hf m name a h ha

theorem foldl_updateD_establish_eq (P : α → Prop) (L : List β) (key : β → String)
    (f : β → Option α → α) (x0 : β) (hx0 : x0 ∈ L)
    (hEst : ∀ x o, key x = key x0 → P (f x o))
    (hPres : ∀ x a, P a → P (f x (some a)))
    (m M : List (String × α))
    (hM : M = L.foldl (fun acc x => updateD acc (key x) (f x)) m) :
    ∃ a', lookupD M (key x0) = some a' ∧ P a' := by
  rw [hM]
  exact foldl_updateD_establish P L key f x0 hx0 hEst hPres m

theorem foldl_updateD_pointwise_eq {δ : Sort uq} (q : Option α → δ) (L : List β)
    (key : β → String) (f : β → Option α → α) (hf : ∀ x o, q (some (f x o)) = q o)
    (m M : List (String × α)) (name : String)
    (hM : M = L.foldl (fun acc x => updateD acc (key x) (f x)) m) :
    q (lookupD M name) = q (lookupD m name) := by
  rw [hM]
  exact foldl_updateD_pointwise q L key f hf m name

end EqFoldLemmas

/-- C7: after a successful `add_package` for a name with an existing entry,
requirement edges keyed by this package exist exactly for the new record's
declared dependencies (with the new ranges); edges retracted are exactly
those of the old record absent from the new one; edges keyed by any other
source are untouched; and the same holds symmetrically for the modern
(legacy-supersession) edges derived from the old and new legacy lists. -/
theorem C7_reinstall_diff (ctx : ResolutionContext) (p : PackageInfo) (e : DependencyInfo)
    (ctx' : ResolutionContext)
    (hlook : lookupD ctx.dependencies p.name = some e)
    (hnd : (p.vpm_dependencies.map Prod.fst).Nodup)
    (h : ctx.add_package p = some (true, ctx')) :
    (∀ d, d ∈ e.dependencies → d ∉ p.vpm_dependencies.map Prod.fst →
      reqEdge ctx' d p.name = none) ∧
    (∀ d r, (d, r) ∈ p.vpm_dependencies → reqEdge ctx' d p.name = some r) ∧
    (∀ d s, s ≠ p.name → reqEdge ctx' d s = reqEdge ctx d s) ∧
    (∀ d, d ∈ e.legacy_packages → d ∉ p.legacy_packages →
      modernEdge ctx' d p.name = false) ∧
    (∀ d, d ∈ p.legacy_packages → modernEdge ctx' d p.name = true) ∧
    (∀ d s, s ≠ p.name → modernEdge ctx' d s = modernEdge ctx d s) := by
  obtain ⟨hleg, m1, m3, hstep1, hstep2, hdeps, hpre, hq⟩ :=
    add_package_some_true_elim ctx p e ctx' hlook h
  refine ⟨?_, ?_, ?_, ?_, ?_, ?_⟩
  · intro d hdold hdnew
    obtain ⟨e2, he2, he2'⟩ :=
      guardedFold_lookup_mem (fun x => x.remove_range p.name) DependencyInfo.default
        e.dependencies _ m1 d (fun a => remove_range_idem a p.name) hstep1 hdold
    have hm2 : lookupD (p.vpm_dependencies.foldl
        (fun m dr => updateD m dr.1
          (fun o => (o.getD DependencyInfo.default).add_range p.name dr.2)) m1) d
        = lookupD m1 d :=
      lookupD_foldl_updateD_notMem p.vpm_dependencies Prod.fst
        (fun dr o => (o.getD DependencyInfo.default).add_range p.name dr.2) m1 d
        (fun x hx hcontra => hdnew (hcontra ▸ List.mem_map_of_mem Prod.fst hx))
    have hPnone : lookupD (e2.remove_range p.name).requirements p.name = none := by
      unfold DependencyInfo.remove_range
      simp [lookupD_removeD_self]
    obtain ⟨a3, ha3, hP3⟩ :=
      guardedFold_preserves (fun a => lookupD a.requirements p.name = none)
        (fun x => x.remove_modern_package p.name) DependencyInfo.default
        e.legacy_packages _ m3 d (e2.remove_range p.name)
        (fun b hb => hb) hstep2 (hm2.trans he2') hPnone
    obtain ⟨a4, ha4, hP4⟩ :=
      foldl_updateD_preserves_eq (fun a => lookupD a.requirements p.name = none)
        p.legacy_packages (fun x => x)
        (fun x o => (o.getD DependencyInfo.default).add_modern_package p.name)
        (fun x a ha => by exact ha) m3 ctx'.dependencies d a3 hdeps ha3 hP3
    unfold reqEdge
    rw [ha4]
    exact hP4
  · intro d r hmem
    have hv := lookupD_foldl_updateD_nodupKeys p.vpm_dependencies
      (fun dr o => (o.getD DependencyInfo.default).add_range p.name dr.2) m1 d r hmem hnd
    have hPv : lookupD
        (((lookupD m1 d).getD DependencyInfo.default).add_range p.name r).requirements
        p.name = some r := by
      unfold DependencyInfo.add_range
      simp [lookupD_updateD_self]
    obtain ⟨a3, ha3, hP3⟩ :=
      guardedFold_preserves (fun a => lookupD a.requirements p.name = some r)
        (fun x => x.remove_modern_package p.name) DependencyInfo.default
        e.legacy_packages _ m3 d _ (fun b hb => hb) hstep2 hv hPv
    obtain ⟨a4, ha4, hP4⟩ :=
      foldl_updateD_preserves_eq (fun a => lookupD a.requirements p.name = some r)
        p.legacy_packages (fun x => x)
        (fun x o => (o.getD DependencyInfo.default).add_modern_package p.name)
        (fun x a ha => by exact ha) m3 ctx'.dependencies d a3 hdeps ha3 hP3
    unfold reqEdge
    rw [ha4]
    exact hP4
  · intro d s hs
    have h5 :=
      foldl_updateD_pointwise_eq
        (fun o : Option DependencyInfo =>
          lookupD (o.getD DependencyInfo.default).requirements s)
        p.legacy_packages (fun x => x)
        (fun x o => (o.getD DependencyInfo.default).add_modern_package p.name)
        (fun x o => rfl) m3 ctx'.dependencies d hdeps
    have h4 :=
      guardedFold_pointwise
        (fun o : Option DependencyInfo =>
          lookupD (o.getD DependencyInfo.default).requirements s)
        (fun x => x.remove_modern_package p.name) DependencyInfo.default
        e.legacy_packages _ m3 hstep2 (fun o => rfl) d
    have h3 :=
      foldl_updateD_pointwise
        (fun o : Option DependencyInfo =>
          lookupD (o.getD DependencyInfo.default).requirements s)
        p.vpm_dependencies Prod.fst
        (fun dr o => (o.getD DependencyInfo.default).add_range p.name dr.2)
        (fun x o =>
          lookupD_updateD_ne ((o.getD DependencyInfo.default).requirements) p.name s
            (fun _ => x.2) hs) m1 d
    have h2 :=
      guardedFold_pointwise
        (fun o : Option DependencyInfo =>
          lookupD (o.getD DependencyInfo.default).requirements s)
        (fun x => x.remove_range p.name) DependencyInfo.default
        e.dependencies _ m1 hstep1
        (fun o =>
          lookupD_removeD_ne ((o.getD DependencyInfo.default).requirements) p.name s hs) d
    have h1 : lookupD ((lookupD (updateD ctx.dependencies p.name (installEntry p)) d).getD
          DependencyInfo.default).requirements s
        = lookupD ((lookupD ctx.dependencies d).getD DependencyInfo.default).requirements s := by
      by_cases hd : d = p.name
      · subst hd
        rw [lookupD_updateD_self]
        rfl
      · rw [lookupD_updateD_ne _ _ _ _ hd]
    unfold reqEdge
    exact h5.trans (h4.trans (h3.trans (h2.trans h1)))
  · intro d hdold hdnew
    obtain ⟨e2, he2, he2'⟩ :=
      guardedFold_lookup_mem (fun x => x.remove_modern_package p.name)
        DependencyInfo.default e.legacy_packages _ m3 d
        (fun a => remove_modern_idem a p.name) hstep2 hdold
    have hfinal : lookupD ctx'.dependencies d = lookupD m3 d :=
      lookupD_foldl_updateD_notMem_eq p.legacy_packages (fun x => x)
        (fun x o => (o.getD DependencyInfo.default).add_modern_package p.name)
        m3 ctx'.dependencies d hdeps (fun x hx hcontra => hdnew (hcontra ▸ hx))
    unfold modernEdge
    rw [hfinal, he2']
    simp [DependencyInfo.remove_modern_package, mem_removeS]
  · intro d hd
    obtain ⟨a', ha', hP⟩ :=
      foldl_updateD_establish_eq (fun a => p.name ∈ a.modern_packages)
        p.legacy_packages (fun x => x)
        (fun x o => (o.getD DependencyInfo.default).add_modern_package p.name)
        d hd (fun x o _ => (mem_insertS _ _ _).mpr (Or.inl rfl))
        (fun x a ha => (mem_insertS _ _ _).mpr (Or.inr ha)) m3 ctx'.dependencies hdeps
    unfold modernEdge
    rw [ha']
    simpa using hP
  · intro d s hs
    have h5 :=
      foldl_updateD_pointwise_eq
        (fun o : Option DependencyInfo =>
          decide (s ∈ (o.getD DependencyInfo.default).modern_packages))
        p.legacy_packages (fun x => x)
        (fun x o => (o.getD DependencyInfo.default).add_modern_package p.name)
        (fun x o => by
          simp only [decide_eq_decide, Option.getD_some, DependencyInfo.add_modern_package]
          rw [mem_insertS]
          simp [hs]) m3 ctx'.dependencies d hdeps
    have h4 :=
      guardedFold_pointwise
        (fun o : Option DependencyInfo =>
          decide (s ∈ (o.getD DependencyInfo.default).modern_packages))
        (fun x => x.remove_modern_package p.name) DependencyInfo.default
        e.legacy_packages _ m3 hstep2
        (fun o => by
          simp only [decide_eq_decide, Option.getD_some, DependencyInfo.remove_modern_package]
          rw [mem_removeS]
          simp [hs]) d
    have h3 :=
      foldl_updateD_pointwise
        (fun o : Option DependencyInfo =>
          decide (s ∈ (o.getD DependencyInfo.default).modern_packages))
        p.vpm_dependencies Prod.fst
        (fun dr o => (o.getD DependencyInfo.default).add_range p.name dr.2)
        (fun x o => rfl) m1 d
    have h2 :=
      guardedFold_pointwise
        (fun o : Option DependencyInfo =>
          decide (s ∈ (o.getD DependencyInfo.default).modern_packages))
        (fun x => x.remove_range p.name) DependencyInfo.default
        e.dependencies _ m1 hstep1 (fun o => rfl) d
    have h1 : decide (s ∈ ((lookupD (updateD ctx.dependencies p.name (installEntry p)) d).getD
          DependencyInfo.default).modern_packages)
        = decide (s ∈ ((lookupD ctx.dependencies d).getD
          DependencyInfo.default).modern_packages) := by
      by_cases hd : d = p.name
      · subst hd
        rw [lookupD_updateD_self]
        rfl
      · rw [lookupD_updateD_ne _ _ _ _ hd]
    unfold modernEdge
    exact h5.trans (h4.trans (h3.trans (h2.trans h1)))

/-- Reinstall scenario: "A" was installed at 1.0.0 requiring "B" and
superseding "L"; it is reinstalled at 2.0.0 requiring "C" and superseding
"M". -/
def entryA7 : DependencyInfo :=
  ⟨some pkgA1, some vOne, [], ["B"], [], ["L"], false, false⟩

def entryB7 : DependencyInfo :=
  ⟨none, none, [("A", rangeAny)], [], [], [], false, false⟩

def entryL7 : DependencyInfo :=
  ⟨none, none, [], [], ["A"], [], false, false⟩

def ctx7 : ResolutionContext :=
  ⟨false, [], [("A", entryA7), ("B", entryB7), ("L", entryL7)]⟩

def pkgA2new : PackageInfo := ⟨"A", vTwo, [("C", rangeNone)], ["M"]⟩

/-- Expected context after reinstalling "A" at 2.0.0 in `ctx7`. -/
def ctx7after : ResolutionContext :=
  ⟨false, [],
    [("A", ⟨some pkgA2new, some vTwo, [], ["C"], [], ["M"], false, true⟩),
     ("B", ⟨none, none, [], [], [], [], false, true⟩),
     ("L", ⟨none, none, [], [], [], [], false, true⟩),
     ("C", ⟨none, none, [("A", rangeNone)], [], [], [], false, true⟩),
     ("M", ⟨none, none, [], [], ["A"], [], false, true⟩)]⟩

theorem C7_reinstall_diff_witness :
    lookupD ctx7.dependencies pkgA2new.name = some entryA7 ∧
    (List.map Prod.fst pkgA2new.vpm_dependencies).Nodup ∧
    ctx7.add_package pkgA2new = some (true, ctx7after) ∧
    reqEdge ctx7after "B" "A" = none ∧
    reqEdge ctx7after "C" "A" = some rangeNone ∧
    modernEdge ctx7after "L" "A" = false ∧
    modernEdge ctx7after "M" "A" = true := by
  have hc := C7_reinstall_diff ctx7 pkgA2new entryA7 ctx7after rfl (by decide) rfl
  exact ⟨rfl, by decide, rfl,
    hc.1 "B" (by decide) (by decide),
    hc.2.1 "C" rangeNone (by simp [pkgA2new]),
    hc.2.2.2.1 "L" (by decide) (by decide),
    hc.2.2.2.2.1 "M" (by decide)⟩

theorem lookupD_updateD_preserves {α : Type} (P : α → Prop) (m : List (String × α))
    (k : String) (f : Option α → α) (hf : ∀ a, P a → P (f (some a)))
    (name : String) (a : α) (h : lookupD m name = some a) (ha : P a) :
    ∃ a', lookupD (updateD m k f) name = some a' ∧ P a' := by
  by_cases hk : name = k
  · subst hk
    rw [lookupD_updateD_self, h]
    exact ⟨f (some a), rfl, hf a ha⟩
  · rw [lookupD_updateD_ne _ _ _ _ hk]
    exact ⟨a, h, ha⟩

/-- C8 counterexample: package "A" is in the caller-supplied initial
candidate set, so `ResolutionContext::new` forces its `allow_pre` on; a
subsequent `add_root_dependency` for "A" with `allow_pre = false` replaces
the entry wholesale and the flag is narrowed back to `false`. -/
theorem C8_allow_pre_counterexample :
    (lookupD (ResolutionContext.new false [pkgA1]).dependencies "A").map
      DependencyInfo.allow_pre = some true ∧
    (lookupD ((ResolutionContext.new false [pkgA1]).add_root_dependency "A" rangeAny
        false).dependencies "A").map DependencyInfo.allow_pre = some false :=
  ⟨rfl, rfl⟩

/-- C8 amended: the prerelease allowance of an entry is monotone under
every context operation except `add_root_dependency`: once an entry's
`allow_pre` is true, seeding a locked dependency and installing any package
(whether accepted or rejected) leave it true; only root-dependency seeding,
which replaces the entry wholesale, can reset it. -/
theorem C8_allow_pre_monotone (ctx : ResolutionContext) (name : String)
    (e : DependencyInfo) (hlook : lookupD ctx.dependencies name = some e)
    (hpre : e.allow_pre = true) :
    (∀ (locked : LockedDependencyInfo) (env : PackageCollection),
      ∃ e', lookupD (ctx.add_locked_dependency locked env).dependencies name = some e' ∧
        e'.allow_pre = true) ∧
    (∀ (p : PackageInfo) (b : Bool) (ctx' : ResolutionContext),
      ctx.add_package p = some (b, ctx') →
      ∃ e', lookupD ctx'.dependencies name = some e' ∧ e'.allow_pre = true) := by
  constructor
  · intro locked env
    unfold ResolutionContext.add_locked_dependency
    obtain ⟨a1, ha1, hP1⟩ :=
      lookupD_updateD_preserves (fun a => a.allow_pre = true) ctx.dependencies locked.name
        (lockedSet locked)
        (fun a ha => by
          unfold lockedSet DependencyInfo.set_using_info
          simp [ha]) name e hlook hpre
    cases henv : env.find_package_by_name locked.name
        (VersionSelector.specific_version locked.version) with
    | none =>
      simp only [henv]
      exact foldl_updateD_preserves (fun a => a.allow_pre = true) locked.dependencies
        Prod.fst (lockedReq locked)
        (fun x a ha => by exact ha) _ name a1 ha1 hP1
    | some pkg =>
      simp only [henv]
      obtain ⟨a2, ha2, hP2⟩ :=
        lookupD_updateD_preserves (fun a => a.allow_pre = true) _ locked.name
          (lockedLeg pkg)
          (fun a ha => by exact ha) name a1 ha1 hP1
      obtain ⟨a3, ha3, hP3⟩ :=
        foldl_updateD_preserves (fun a => a.allow_pre = true) pkg.legacy_packages
          (fun x => x) (lockedMod locked)
          (fun x a ha => by exact ha) _ name a2 ha2 hP2
      exact foldl_updateD_preserves (fun a => a.allow_pre = true) locked.dependencies
        Prod.fst (lockedReq locked)
        (fun x a ha => by exact ha) _ name a3 ha3 hP3
  · intro p b ctx' h
    unfold ResolutionContext.add_package at h
    obtain ⟨a0, ha0, hP0⟩ :=
      lookupD_updateD_preserves (fun a => a.allow_pre = true) ctx.dependencies p.name
        (fun o => o.getD DependencyInfo.default) (fun a ha => by exact ha) name e hlook hpre
    simp only [] at h
    split at h
    · simp only [Option.some.injEq, Prod.mk.injEq] at h
      rw [← h.2]
      exact ⟨a0, ha0, hP0⟩
    · obtain ⟨a1, ha1, hP1⟩ :=
        lookupD_updateD_preserves (fun a => a.allow_pre = true) _ p.name
          (installEntry p) (fun a ha => by exact ha) name a0 ha0 hP0
      split at h
      · cases h
      · rename_i m1 hstep1
        obtain ⟨a2, ha2, hP2⟩ :=
          guardedFold_preserves (fun a => a.allow_pre = true)
            (fun x => x.remove_range p.name) DependencyInfo.default _ _ m1 name a1
            (fun c hc => by exact hc) hstep1 ha1 hP1
        obtain ⟨a3, ha3, hP3⟩ :=
          foldl_updateD_preserves (fun a => a.allow_pre = true) p.vpm_dependencies
            Prod.fst (fun dr o => (o.getD DependencyInfo.default).add_range p.name dr.2)
            (fun x c hc => by exact hc) m1 name a2 ha2 hP2
        split at h
        · cases h
        · rename_i m3 hstep2
          obtain ⟨a4, ha4, hP4⟩ :=
            guardedFold_preserves (fun a => a.allow_pre = true)
              (fun x => x.remove_modern_package p.name) DependencyInfo.default _ _ m3
              name a3 (fun c hc => by exact hc) hstep2 ha3 hP3
          obtain ⟨a5, ha5, hP5⟩ :=
            foldl_updateD_preserves (fun a => a.allow_pre = true) p.legacy_packages
              (fun x => x)
              (fun legacy o => (o.getD DependencyInfo.default).add_modern_package p.name)
              (fun x c hc => by exact hc) m3 name a4 ha4 hP4
          simp only [Option.some.injEq, Prod.mk.injEq] at h
          rw [← h.2]
          exact ⟨a5, ha5, hP5⟩

def ctxPreA : ResolutionContext :=
  ⟨false, [], [("A", ⟨none, none, [], [], [], [], true, false⟩)]⟩

def lockedB : LockedDependencyInfo := ⟨"B", vOne, []⟩

def envEmpty : PackageCollection := ⟨fun _ _ => none⟩

/-- Context after installing `pkgB1` into `ctxPreA`. -/
def ctxPreAafter : ResolutionContext :=
  ⟨false, [],
    [("A", ⟨none, none, [], [], [], [], true, false⟩),
     ("B", ⟨some pkgB1, some vOne, [], [], [], [], false, true⟩)]⟩

theorem C8_allow_pre_monotone_witness :
    lookupD ctxPreA.dependencies "A" = some ⟨none, none, [], [], [], [], true, false⟩ ∧
    (∃ e', lookupD (ctxPreA.add_locked_dependency lockedB envEmpty).dependencies "A"
      = some e' ∧ e'.allow_pre = true) ∧
    (ctxPreA.add_package pkgB1 = some (true, ctxPreAafter) ∧
      ∃ e', lookupD ctxPreAafter.dependencies "A" = some e' ∧ e'.allow_pre = true) := by
  have hm := C8_allow_pre_monotone ctxPreA "A" ⟨none, none, [], [], [], [], true, false⟩ rfl rfl
  exact ⟨rfl, hm.1 lockedB envEmpty, rfl, hm.2 pkgB1 true ctxPreAafter rfl⟩

/-- Every name reachable through some entry's `dependencies` set or
`legacy_packages` list has an entry in the table. -/
def EntriesClosed (m : DepMap) : Prop :=
  ∀ name info, lookupD m name = some info →
    (∀ d ∈ info.dependencies, (lookupD m d).isSome = true) ∧
    (∀ d ∈ info.legacy_packages, (lookupD m d).isSome = true)

theorem updateD_isSome_mono {α : Type} (m : List (String × α)) (k : String)
    (f : Option α → α) (d : String) (h : (lookupD m d).isSome = true) :
    (lookupD (updateD m k f) d).isSome = true := by
  by_cases hd : d = k
  · subst hd
    rw [lookupD_updateD_self]
    rfl
  · rw [lookupD_updateD_ne _ _ _ _ hd]
    exact h

theorem updateD_forall {α : Type} (P : α → Prop) (m : List (String × α)) (k : String)
    (f : Option α → α) (h : ∀ n a, lookupD m n = some a → P a)
    (hf0 : P (f none)) (hf1 : ∀ a, P a → P (f (some a))) :
    ∀ n a, lookupD (updateD m k f) n = some a → P a := by
  intro n a ha
  by_cases hn : n = k
  · subst hn
    rw [lookupD_updateD_self] at ha
    cases ha
    cases hl : lookupD m n with
    | none => exact hf0
    | some b => exact hf1 b (h n b hl)
  · rw [lookupD_updateD_ne _ _ _ _ hn] at ha
    exact h n a ha

theorem foldl_updateD_forall {α β : Type} (P : α → Prop) (L : List β) (key : β → String)
    (f : β → Option α → α) (m : List (String × α))
    (h : ∀ n a, lookupD m n = some a → P a)
    (hf0 : ∀ x, P (f x none)) (hf1 : ∀ x a, P a → P (f x (some a))) :
    ∀ n a, lookupD (L.foldl (fun acc x => updateD acc (key x) (f x)) m) n = some a → P a := by
  induction L generalizing m with
  | nil => exact h
  | cons x rest ih =>
    simp only [List.foldl_cons]
    exact ih _ (updateD_forall P m (key x) (f x) h (hf0 x) (hf1 x))

/-- The unwrapped entry lookup in `should_add_package` is the only way it
can panic: a present entry always yields an answer. -/
theorem should_add_isSome (ctx : ResolutionContext) (name : String) (range : VersionRange)
    (h : (lookupD ctx.dependencies name).isSome = true) :
    ctx.should_add_package name range ≠ none := by
  unfold ResolutionContext.should_add_package
  cases hl : lookupD ctx.dependencies name with
  | none => rw [hl] at h; simp at h
  | some entry =>
    by_cases hleg : entry.is_legacy = true
    · simp [hleg]
    · cases hp : find_pending_package ctx.pending_queue name with
      | some pending => simp [hleg, hp]
      | none =>
        cases hc : entry.current with
        | some version => simp [hleg, hp, hc]
        | none => simp [hleg, hp, hc]

theorem closed_new (b : Bool) (ps : List PackageInfo) :
    EntriesClosed (ResolutionContext.new b ps).dependencies := by
  intro n i hlook
  have hP := foldl_updateD_forall
    (fun a => a.dependencies = [] ∧ a.legacy_packages = [])
    ps (fun pkg => pkg.name)
    (fun pkg o => { o.getD DependencyInfo.default with allow_pre := true })
    [] (fun n a h => by simp [lookupD] at h)
    (fun x => ⟨rfl, rfl⟩) (fun x a ha => by exact ha)
    n i hlook
  constructor
  · intro d hd
    rw [hP.1] at hd
    cases hd
  · intro d hd
    rw [hP.2] at hd
    cases hd

theorem closed_root (ctx : ResolutionContext) (name : String) (range : VersionRange)
    (ap : Bool) (h : EntriesClosed ctx.dependencies) :
    EntriesClosed (ctx.add_root_dependency name range ap).dependencies := by
  intro n i hlook
  simp only [ResolutionContext.add_root_dependency] at hlook ⊢
  by_cases hn : n = name
  · subst hn
    rw [lookupD_updateD_self] at hlook
    cases hlook
    exact ⟨(fun d hd => nomatch hd), (fun d hd => nomatch hd)⟩
  · rw [lookupD_updateD_ne _ _ _ _ hn] at hlook
    obtain ⟨h1, h2⟩ := h n i hlook
    exact ⟨fun d hd => updateD_isSome_mono _ _ _ _ (h1 d hd),
      fun d hd => updateD_isSome_mono _ _ _ _ (h2 d hd)⟩

theorem closed_locked (ctx : ResolutionContext) (locked : LockedDependencyInfo)
    (env : PackageCollection) (h : EntriesClosed ctx.dependencies) :
    EntriesClosed (ctx.add_locked_dependency locked env).dependencies := by
  have hmono : ∀ d, (lookupD ctx.dependencies d).isSome = true →
      (lookupD (ctx.add_locked_dependency locked env).dependencies d).isSome = true := by
    intro d hd
    unfold ResolutionContext.add_locked_dependency
    cases henv : env.find_package_by_name locked.name
        (VersionSelector.specific_version locked.version) with
    | none =>
      simp only [henv]
      exact foldl_updateD_isSome_mono _ _ _ _ _ (updateD_isSome_mono _ _ _ _ hd)
    | some pkg =>
      simp only [henv]
      exact foldl_updateD_isSome_mono _ _ _ _ _
        (foldl_updateD_isSome_mono _ _ _ _ _
          (updateD_isSome_mono _ _ _ _ (updateD_isSome_mono _ _ _ _ hd)))
  have hkeys : ∀ dr, dr ∈ locked.dependencies →
      (lookupD (ctx.add_locked_dependency locked env).dependencies dr.1).isSome = true := by
    intro dr hdr
    unfold ResolutionContext.add_locked_dependency
    cases henv : env.find_package_by_name locked.name
        (VersionSelector.specific_version locked.version) with
    | none =>
      simp only [henv]
      exact foldl_updateD_mem_isSome locked.dependencies Prod.fst _ _ dr hdr
    | some pkg =>
      simp only [henv]
      exact foldl_updateD_mem_isSome locked.dependencies Prod.fst _ _ dr hdr
  have hfield_ne : ∀ n, n ≠ locked.name →
      ((lookupD (ctx.add_locked_dependency locked env).dependencies n).getD
          DependencyInfo.default).dependencies
        = ((lookupD ctx.dependencies n).getD DependencyInfo.default).dependencies ∧
      ((lookupD (ctx.add_locked_dependency locked env).dependencies n).getD
          DependencyInfo.default).legacy_packages
        = ((lookupD ctx.dependencies n).getD DependencyInfo.default).legacy_packages := by
    intro n hn
    unfold ResolutionContext.add_locked_dependency
    cases henv : env.find_package_by_name locked.name
        (VersionSelector.specific_version locked.version) with
    | none =>
      simp only [henv]
      constructor
      · have h3 := foldl_updateD_pointwise
          (fun o : Option DependencyInfo => (o.getD DependencyInfo.default).dependencies)
          locked.dependencies Prod.fst (lockedReq locked) (fun x o => rfl)
          (updateD ctx.dependencies locked.name (lockedSet locked)) n
        exact h3.trans (congrArg
          (fun o : Option DependencyInfo => (o.getD DependencyInfo.default).dependencies)
          (lookupD_updateD_ne _ _ _ _ hn))
      · have h3 := foldl_updateD_pointwise
          (fun o : Option DependencyInfo => (o.getD DependencyInfo.default).legacy_packages)
          locked.dependencies Prod.fst (lockedReq locked) (fun x o => rfl)
          (updateD ctx.dependencies locked.name (lockedSet locked)) n
        exact h3.trans (congrArg
          (fun o : Option DependencyInfo => (o.getD DependencyInfo.default).legacy_packages)
          (lookupD_updateD_ne _ _ _ _ hn))
    | some pkg =>
      simp only [henv]
      constructor
      · have h3 := foldl_updateD_pointwise
          (fun o : Option DependencyInfo => (o.getD DependencyInfo.default).dependencies)
          locked.dependencies Prod.fst (lockedReq locked) (fun x o => rfl)
          (pkg.legacy_packages.foldl
            (fun m legacy => updateD m legacy (lockedMod locked legacy))
            (updateD (updateD ctx.dependencies locked.name (lockedSet locked))
              locked.name (lockedLeg pkg))) n
        have h2 := foldl_updateD_pointwise
          (fun o : Option DependencyInfo => (o.getD DependencyInfo.default).dependencies)
          pkg.legacy_packages (fun x => x) (lockedMod locked) (fun x o => rfl)
          (updateD (updateD ctx.dependencies locked.name (lockedSet locked))
            locked.name (lockedLeg pkg)) n
        refine h3.trans (h2.trans ?_)
        have h1 := congrArg
          (fun o : Option DependencyInfo => (o.getD DependencyInfo.default).dependencies)
          (lookupD_updateD_ne (updateD ctx.dependencies locked.name (lockedSet locked))
            locked.name n (lockedLeg pkg) hn)
        refine h1.trans ?_
        exact congrArg
          (fun o : Option DependencyInfo => (o.getD DependencyInfo.default).dependencies)
          (lookupD_updateD_ne _ _ _ _ hn)
      · have h3 := foldl_updateD_pointwise
          (fun o : Option DependencyInfo => (o.getD DependencyInfo.default).legacy_packages)
          locked.dependencies Prod.fst (lockedReq locked) (fun x o => rfl)
          (pkg.legacy_packages.foldl
            (fun m legacy => updateD m legacy (lockedMod locked legacy))
            (updateD (updateD ctx.dependencies locked.name (lockedSet locked))
              locked.name (lockedLeg pkg))) n
        have h2 := foldl_updateD_pointwise
          (fun o : Option DependencyInfo => (o.getD DependencyInfo.default).legacy_packages)
          pkg.legacy_packages (fun x => x) (lockedMod locked) (fun x o => rfl)
          (updateD (updateD ctx.dependencies locked.name (lockedSet locked))
            locked.name (lockedLeg pkg)) n
        refine h3.trans (h2.trans ?_)
        have h1 := congrArg
          (fun o : Option DependencyInfo => (o.getD DependencyInfo.default).legacy_packages)
          (lookupD_updateD_ne (updateD ctx.dependencies locked.name (lockedSet locked))
            locked.name n (lockedLeg pkg) hn)
        refine h1.trans ?_
        exact congrArg
          (fun o : Option DependencyInfo => (o.getD DependencyInfo.default).legacy_packages)
          (lookupD_updateD_ne _ _ _ _ hn)
  have hfield_self_dep :
      ((lookupD (ctx.add_locked_dependency locked env).dependencies locked.name).getD
          DependencyInfo.default).dependencies
        = locked.dependencies.map (fun dr => dr.1) := by
    unfold ResolutionContext.add_locked_dependency
    cases henv : env.find_package_by_name locked.name
        (VersionSelector.specific_version locked.version) with
    | none =>
      simp only [henv]
      have h3 := foldl_updateD_pointwise
        (fun o : Option DependencyInfo => (o.getD DependencyInfo.default).dependencies)
        locked.dependencies Prod.fst (lockedReq locked) (fun x o => rfl)
        (updateD ctx.dependencies locked.name (lockedSet locked)) locked.name
      refine h3.trans ?_
      rw [lookupD_updateD_self]
      rfl
    | some pkg =>
      simp only [henv]
      have h3 := foldl_updateD_pointwise
        (fun o : Option DependencyInfo => (o.getD DependencyInfo.default).dependencies)
        locked.dependencies Prod.fst (lockedReq locked) (fun x o => rfl)
        (pkg.legacy_packages.foldl
          (fun m legacy => updateD m legacy (lockedMod locked legacy))
          (updateD (updateD ctx.dependencies locked.name (lockedSet locked))
            locked.name (lockedLeg pkg))) locked.name
      have h2 := foldl_updateD_pointwise
        (fun o : Option DependencyInfo => (o.getD DependencyInfo.default).dependencies)
        pkg.legacy_packages (fun x => x) (lockedMod locked) (fun x o => rfl)
        (updateD (updateD ctx.dependencies locked.name (lockedSet locked))
          locked.name (lockedLeg pkg)) locked.name
      refine h3.trans (h2.trans ?_)
      rw [lookupD_updateD_self, lookupD_updateD_self]
      rfl
  intro n i hlook
  have hi : ((lookupD (ctx.add_locked_dependency locked env).dependencies n).getD
      DependencyInfo.default) = i := by
    rw [hlook]
    rfl
  by_cases hn : n = locked.name
  · subst hn
    constructor
    · intro d hd
      rw [← hi, hfield_self_dep] at hd
      obtain ⟨dr, hdr, hdd⟩ := List.mem_map.mp hd
      rw [← hdd]
      exact hkeys dr hdr
    · intro d hd
      rw [← hi] at hd
      revert hd
      unfold ResolutionContext.add_locked_dependency
      cases henv : env.find_package_by_name locked.name
          (VersionSelector.specific_version locked.version) with
      | none =>
        simp only [henv]
        intro hd
        have hself := foldl_updateD_pointwise
          (fun o : Option DependencyInfo => (o.getD DependencyInfo.default).legacy_packages)
          locked.dependencies Prod.fst (lockedReq locked) (fun x o => rfl)
          (updateD ctx.dependencies locked.name (lockedSet locked)) locked.name
        rw [hself] at hd
        rw [lookupD_updateD_self] at hd
        cases hl0 : lookupD ctx.dependencies locked.name with
        | none =>
          rw [hl0] at hd
          cases hd
        | some e0 =>
          rw [hl0] at hd
          have hc := (h locked.name e0 hl0).2 d hd
          exact foldl_updateD_isSome_mono _ _ _ _ _ (updateD_isSome_mono _ _ _ _ hc)
      | some pkg =>
        simp only [henv]
        intro hd
        have hself := foldl_updateD_pointwise
          (fun o : Option DependencyInfo => (o.getD DependencyInfo.default).legacy_packages)
          locked.dependencies Prod.fst (lockedReq locked) (fun x o => rfl)
          (pkg.legacy_packages.foldl
            (fun m legacy => updateD m legacy (lockedMod locked legacy))
            (updateD (updateD ctx.dependencies locked.name (lockedSet locked))
              locked.name (lockedLeg pkg))) locked.name
        have hself2 := foldl_updateD_pointwise
          (fun o : Option DependencyInfo => (o.getD DependencyInfo.default).legacy_packages)
          pkg.legacy_packages (fun x => x) (lockedMod locked) (fun x o => rfl)
          (updateD (updateD ctx.dependencies locked.name (lockedSet locked))
            locked.name (lockedLeg pkg)) locked.name
        rw [hself, hself2, lookupD_updateD_self] at hd
        have hd' : d ∈ pkg.legacy_packages := hd
        exact foldl_updateD_isSome_mono _ _ _ _ _
          (foldl_updateD_mem_isSome pkg.legacy_packages (fun x => x) _ _ d hd')
  · obtain ⟨hfd, hfl⟩ := hfield_ne n hn
    rw [hi] at hfd hfl
    constructor
    · intro d hd
      rw [hfd] at hd
      cases hl0 : lookupD ctx.dependencies n with
      | none =>
        rw [hl0] at hd
        cases hd
      | some e0 =>
        rw [hl0] at hd
        exact hmono d ((h n e0 hl0).1 d hd)
    · intro d hd
      rw [hfl] at hd
      cases hl0 : lookupD ctx.dependencies n with
      | none =>
        rw [hl0] at hd
        cases hd
      | some e0 =>
        rw [hl0] at hd
        exact hmono d ((h n e0 hl0).2 d hd)

theorem addpkg_nopanic (ctx : ResolutionContext) (p : PackageInfo)
    (h : EntriesClosed ctx.dependencies) : ctx.add_package p ≠ none := by
  cases hcomp : ctx.add_package p with
  | some r => simp
  | none =>
    exfalso
    unfold ResolutionContext.add_package at hcomp
    simp only [] at hcomp
    have hself : lookupD (updateD ctx.dependencies p.name
        (fun o => o.getD DependencyInfo.default)) p.name
        = some ((lookupD ctx.dependencies p.name).getD DependencyInfo.default) := by
      rw [lookupD_updateD_self]
    rw [hself] at hcomp
    simp only [Option.getD_some] at hcomp
    have hsome1 : ∀ d ∈ ((lookupD ctx.dependencies p.name).getD
        DependencyInfo.default).dependencies,
        (lookupD (updateD (updateD ctx.dependencies p.name
          (fun o => o.getD DependencyInfo.default)) p.name (installEntry p)) d).isSome
          = true := by
      intro d hd
      cases hl0 : lookupD ctx.dependencies p.name with
      | none =>
        rw [hl0] at hd
        cases hd
      | some e0 =>
        rw [hl0] at hd
        exact updateD_isSome_mono _ _ _ _
          (updateD_isSome_mono _ _ _ _ ((h p.name e0 hl0).1 d hd))
    split at hcomp
    · cases hcomp
    · split at hcomp
      · rename_i hstep1
        obtain ⟨mm1, hmm1⟩ := guardedFold_success
          (fun e => e.remove_range p.name) DependencyInfo.default
          ((lookupD ctx.dependencies p.name).getD DependencyInfo.default).dependencies
          (updateD (updateD ctx.dependencies p.name
            (fun o => o.getD DependencyInfo.default)) p.name (installEntry p)) hsome1
        rw [hstep1] at hmm1
        cases hmm1
      · rename_i m1 hstep1
        split at hcomp
        · rename_i hstep2
          have hsome2 : ∀ d ∈ ((lookupD ctx.dependencies p.name).getD
              DependencyInfo.default).legacy_packages,
              (lookupD (p.vpm_dependencies.foldl
                (fun m dr => updateD m dr.1 (addRangeT p dr)) m1) d).isSome = true := by
            intro d hd
            cases hl0 : lookupD ctx.dependencies p.name with
            | none =>
              rw [hl0] at hd
              cases hd
            | some e0 =>
              rw [hl0] at hd
              have hc := (h p.name e0 hl0).2 d hd
              exact foldl_updateD_isSome_mono _ _ _ _ _
                (guardedFold_isSome_mono _ _ _ _ _ _ hstep1
                  (updateD_isSome_mono _ _ _ _ (updateD_isSome_mono _ _ _ _ hc)))
          obtain ⟨mm3, hmm3⟩ := guardedFold_success
            (fun e => e.remove_modern_package p.name) DependencyInfo.default
            ((lookupD ctx.dependencies p.name).getD DependencyInfo.default).legacy_packages
            (p.vpm_dependencies.foldl (fun m dr => updateD m dr.1 (addRangeT p dr)) m1)
            hsome2
          rw [hstep2] at hmm3
          cases hmm3
        · cases hcomp

theorem addpkg_closed (ctx : ResolutionContext) (p : PackageInfo) (b : Bool)
    (ctx' : ResolutionContext) (h : EntriesClosed ctx.dependencies)
    (hcomp : ctx.add_package p = some (b, ctx')) :
    EntriesClosed ctx'.dependencies := by
  unfold ResolutionContext.add_package at hcomp
  simp only [] at hcomp
  have hself0 : lookupD (updateD ctx.dependencies p.name
      (fun o => o.getD DependencyInfo.default)) p.name
      = some ((lookupD ctx.dependencies p.name).getD DependencyInfo.default) := by
    rw [lookupD_updateD_self]
  rw [hself0] at hcomp
  simp only [Option.getD_some] at hcomp
  split at hcomp
  · simp only [Option.some.injEq, Prod.mk.injEq] at hcomp
    have hdeps : ctx'.dependencies = updateD ctx.dependencies p.name
        (fun o => o.getD DependencyInfo.default) := by
      rw [← hcomp.2]
    intro n i hlook
    rw [hdeps] at hlook
    rw [hdeps]
    by_cases hn : n = p.name
    · subst hn
      rw [hself0] at hlook
      cases hlook
      cases hl0 : lookupD ctx.dependencies p.name with
      | none =>
        exact ⟨(fun d hd => nomatch hd), (fun d hd => nomatch hd)⟩
      | some e0 =>
        obtain ⟨c1, c2⟩ := h p.name e0 hl0
        exact ⟨(fun d hd => updateD_isSome_mono _ _ _ _ (c1 d hd)),
          (fun d hd => updateD_isSome_mono _ _ _ _ (c2 d hd))⟩
    · rw [lookupD_updateD_ne _ _ _ _ hn] at hlook
      obtain ⟨c1, c2⟩ := h n i hlook
      exact ⟨(fun d hd => updateD_isSome_mono _ _ _ _ (c1 d hd)),
        (fun d hd => updateD_isSome_mono _ _ _ _ (c2 d hd))⟩
  · split at hcomp
    · cases hcomp
    · rename_i m1 hstep1
      split at hcomp
      · cases hcomp
      · rename_i m3 hstep2
        simp only [Option.some.injEq, Prod.mk.injEq] at hcomp
        have hdeps : ctx'.dependencies = p.legacy_packages.foldl
            (fun m legacy => updateD m legacy (addModernT p legacy)) m3 := by
          rw [← hcomp.2]
        have hmono4 : ∀ d, (lookupD ctx.dependencies d).isSome = true →
            (lookupD ctx'.dependencies d).isSome = true := by
          intro d hd
          rw [hdeps]
          exact foldl_updateD_isSome_mono _ _ _ _ _
            (guardedFold_isSome_mono _ _ _ _ _ _ hstep2
              (foldl_updateD_isSome_mono _ _ _ _ _
                (guardedFold_isSome_mono _ _ _ _ _ _ hstep1
                  (updateD_isSome_mono _ _ _ _ (updateD_isSome_mono _ _ _ _ hd)))))
        have hdepkeys : ∀ dr, dr ∈ p.vpm_dependencies →
            (lookupD ctx'.dependencies dr.1).isSome = true := by
          intro dr hdr
          rw [hdeps]
          exact foldl_updateD_isSome_mono _ _ _ _ _
            (guardedFold_isSome_mono _ _ _ _ _ _ hstep2
              (foldl_updateD_mem_isSome p.vpm_dependencies Prod.fst _ _ dr hdr))
        have hlegkeys : ∀ d, d ∈ p.legacy_packages →
            (lookupD ctx'.dependencies d).isSome = true := by
          intro d hd
          rw [hdeps]
          exact foldl_updateD_mem_isSome p.legacy_packages (fun x => x) _ _ d hd
        intro n i hlook
        have hi : ((lookupD ctx'.dependencies n).getD DependencyInfo.default) = i := by
          rw [hlook]
          rfl
        by_cases hn : n = p.name
        · subst hn
          have hfd : i.dependencies = p.vpm_dependencies.map (fun dr => dr.1) := by
            rw [← hi, hdeps]
            have h5 := foldl_updateD_pointwise
              (fun o : Option DependencyInfo => (o.getD DependencyInfo.default).dependencies)
              p.legacy_packages (fun x => x) (addModernT p) (fun x o => rfl) m3 p.name
            have h4 := guardedFold_pointwise
              (fun o : Option DependencyInfo => (o.getD DependencyInfo.default).dependencies)
              (fun e => e.remove_modern_package p.name) DependencyInfo.default
              ((lookupD ctx.dependencies p.name).getD DependencyInfo.default).legacy_packages
              _ m3 hstep2 (fun o => rfl) p.name
            have h3 := foldl_updateD_pointwise
              (fun o : Option DependencyInfo => (o.getD DependencyInfo.default).dependencies)
              p.vpm_dependencies Prod.fst (addRangeT p) (fun x o => rfl) m1 p.name
            have h2 := guardedFold_pointwise
              (fun o : Option DependencyInfo => (o.getD DependencyInfo.default).dependencies)
              (fun e => e.remove_range p.name) DependencyInfo.default
              ((lookupD ctx.dependencies p.name).getD DependencyInfo.default).dependencies
              _ m1 hstep1 (fun o => rfl) p.name
            refine h5.trans (h4.trans (h3.trans (h2.trans ?_)))
            rw [lookupD_updateD_self]
            rfl
          have hfl : i.legacy_packages = p.legacy_packages := by
            rw [← hi, hdeps]
            have h5 := foldl_updateD_pointwise
              (fun o : Option DependencyInfo =>
                (o.getD DependencyInfo.default).legacy_packages)
              p.legacy_packages (fun x => x) (addModernT p) (fun x o => rfl) m3 p.name
            have h4 := guardedFold_pointwise
              (fun o : Option DependencyInfo =>
                (o.getD DependencyInfo.default).legacy_packages)
              (fun e => e.remove_modern_package p.name) DependencyInfo.default
              ((lookupD ctx.dependencies p.name).getD DependencyInfo.default).legacy_packages
              _ m3 hstep2 (fun o => rfl) p.name
            have h3 := foldl_updateD_pointwise
              (fun o : Option DependencyInfo =>
                (o.getD DependencyInfo.default).legacy_packages)
              p.vpm_dependencies Prod.fst (addRangeT p) (fun x o => rfl) m1 p.name
            have h2 := guardedFold_pointwise
              (fun o : Option DependencyInfo =>
                (o.getD DependencyInfo.default).legacy_packages)
              (fun e => e.remove_range p.name) DependencyInfo.default
              ((lookupD ctx.dependencies p.name).getD DependencyInfo.default).dependencies
              _ m1 hstep1 (fun o => rfl) p.name
            refine h5.trans (h4.trans (h3.trans (h2.trans ?_)))
            rw [lookupD_updateD_self]
            rfl
          constructor
          · intro d hd
            rw [hfd] at hd
            obtain ⟨dr, hdr, hdd⟩ := List.mem_map.mp hd
            rw [← hdd]
            exact hdepkeys dr hdr
          · intro d hd
            rw [hfl] at hd
            exact hlegkeys d hd
        · have hfd : i.dependencies
              = ((lookupD ctx.dependencies n).getD DependencyInfo.default).dependencies := by
            rw [← hi, hdeps]
            have h5 := foldl_updateD_pointwise
              (fun o : Option DependencyInfo => (o.getD DependencyInfo.default).dependencies)
              p.legacy_packages (fun x => x) (addModernT p) (fun x o => rfl) m3 n
            have h4 := guardedFold_pointwise
              (fun o : Option DependencyInfo => (o.getD DependencyInfo.default).dependencies)
              (fun e => e.remove_modern_package p.name) DependencyInfo.default
              ((lookupD ctx.dependencies p.name).getD DependencyInfo.default).legacy_packages
              _ m3 hstep2 (fun o => rfl) n
            have h3 := foldl_updateD_pointwise
              (fun o : Option DependencyInfo => (o.getD DependencyInfo.default).dependencies)
              p.vpm_dependencies Prod.fst (addRangeT p) (fun x o => rfl) m1 n
            have h2 := guardedFold_pointwise
              (fun o : Option DependencyInfo => (o.getD DependencyInfo.default).dependencies)
              (fun e => e.remove_range p.name) DependencyInfo.default
              ((lookupD ctx.dependencies p.name).getD DependencyInfo.default).dependencies
              _ m1 hstep1 (fun o => rfl) n
            refine h5.trans (h4.trans (h3.trans (h2.trans ?_)))
            rw [lookupD_updateD_ne _ _ _ _ hn, lookupD_updateD_ne _ _ _ _ hn]
          have hfl : i.legacy_packages
              = ((lookupD ctx.dependencies n).getD DependencyInfo.default).legacy_packages := by
            rw [← hi, hdeps]
            have h5 := foldl_updateD_pointwise
              (fun o : Option DependencyInfo =>
                (o.getD DependencyInfo.default).legacy_packages)
              p.legacy_packages (fun x => x) (addModernT p) (fun x o => rfl) m3 n
            have h4 := guardedFold_pointwise
              (fun o : Option DependencyInfo =>
                (o.getD DependencyInfo.default).legacy_packages)
              (fun e => e.remove_modern_package p.name) DependencyInfo.default
              ((lookupD ctx.dependencies p.name).getD DependencyInfo.default).legacy_packages
              _ m3 hstep2 (fun o => rfl) n
            have h3 := foldl_updateD_pointwise
              (fun o : Option DependencyInfo =>
                (o.getD DependencyInfo.default).legacy_packages)
              p.vpm_dependencies Prod.fst (addRangeT p) (fun x o => rfl) m1 n
            have h2 := guardedFold_pointwise
              (fun o : Option DependencyInfo =>
                (o.getD DependencyInfo.default).legacy_packages)
              (fun e => e.remove_range p.name) DependencyInfo.default
              ((lookupD ctx.dependencies p.name).getD DependencyInfo.default).dependencies
              _ m1 hstep1 (fun o => rfl) n
            refine h5.trans (h4.trans (h3.trans (h2.trans ?_)))
            rw [lookupD_updateD_ne _ _ _ _ hn, lookupD_updateD_ne _ _ _ _ hn]
          constructor
          · intro d hd
            rw [hfd] at hd
            cases hl0 : lookupD ctx.dependencies n with
            | none =>
              rw [hl0] at hd
              cases hd
            | some e0 =>
              rw [hl0] at hd
              exact hmono4 d ((h n e0 hl0).1 d hd)
          · intro d hd
            rw [hfl] at hd
            cases hl0 : lookupD ctx.dependencies n with
            | none =>
              rw [hl0] at hd
              cases hd
            | some e0 =>
              rw [hl0] at hd
              exact hmono4 d ((h n e0 hl0).2 d hd)

theorem addpkg_dep_entries (ctx : ResolutionContext) (p : PackageInfo)
    (ctx' : ResolutionContext) (hcomp : ctx.add_package p = some (true, ctx')) :
    ∀ dr ∈ p.vpm_dependencies, (lookupD ctx'.dependencies dr.1).isSome = true := by
  unfold ResolutionContext.add_package at hcomp
  simp only [] at hcomp
  split at hcomp
  · simp at hcomp
  · split at hcomp
    · cases hcomp
    · rename_i m1 hstep1
      split at hcomp
      · cases hcomp
      · rename_i m3 hstep2
        simp only [Option.some.injEq, Prod.mk.injEq, true_and] at hcomp
        intro dr hdr
        have hdeps : ctx'.dependencies = p.legacy_packages.foldl
            (fun m legacy => updateD m legacy (addModernT p legacy)) m3 := by
          rw [← hcomp]
        rw [hdeps]
        exact foldl_updateD_isSome_mono _ _ _ _ _
          (guardedFold_isSome_mono _ _ _ _ _ _ hstep2
            (foldl_updateD_mem_isSome p.vpm_dependencies Prod.fst _ _ dr hdr))

/-- C10: entry-table lookups the code unwraps are total under the driver's
call pattern: the closure invariant (every name in any entry's
`dependencies` set or `legacy_packages` list has an entry) holds after
construction and each seeding operation, is preserved by `add_package`, and
under it `add_package` never hits a failing `get_mut(..).unwrap()`;
moreover after a successful `add_package` every declared dependency has an
entry, so the unwrapped lookup in `should_add_package` cannot panic for
any later state of the worklist. -/
theorem C10_unwrap_total :
    (∀ (b : Bool) (ps : List PackageInfo),
      EntriesClosed (ResolutionContext.new b ps).dependencies) ∧
    (∀ (ctx : ResolutionContext) (name : String) (range : VersionRange) (ap : Bool),
      EntriesClosed ctx.dependencies →
      EntriesClosed (ctx.add_root_dependency name range ap).dependencies) ∧
    (∀ (ctx : ResolutionContext) (locked : LockedDependencyInfo) (env : PackageCollection),
      EntriesClosed ctx.dependencies →
      EntriesClosed (ctx.add_locked_dependency locked env).dependencies) ∧
    (∀ (ctx : ResolutionContext) (p : PackageInfo),
      EntriesClosed ctx.dependencies → ctx.add_package p ≠ none) ∧
    (∀ (ctx : ResolutionContext) (p : PackageInfo) (b : Bool) (ctx' : ResolutionContext),
      EntriesClosed ctx.dependencies → ctx.add_package p = some (b, ctx') →
      EntriesClosed ctx'.dependencies) ∧
    (∀ (ctx : ResolutionContext) (p : PackageInfo) (ctx' : ResolutionContext),
      ctx.add_package p = some (true, ctx') →
      ∀ dr ∈ p.vpm_dependencies, ∀ q : PackageQueue,
        ({ ctx' with pending_queue := q } : ResolutionContext).should_add_package dr.1 dr.2
          ≠ none) := by
  refine ⟨closed_new, ?_, ?_, ?_, ?_, ?_⟩
  · intro ctx name range ap hc
    exact closed_root ctx name range ap hc
  · intro ctx locked env hc
    exact closed_locked ctx locked env hc
  · intro ctx p hc
    exact addpkg_nopanic ctx p hc
  · intro ctx p b ctx' hc hcomp
    exact addpkg_closed ctx p b ctx' hc hcomp
  · intro ctx p ctx' hcomp dr hdr q
    apply should_add_isSome
    exact addpkg_dep_entries ctx p ctx' hcomp dr hdr

def pkgADep : PackageInfo := ⟨"A", vOne, [("B", rangeAny)], []⟩

def ctxW10 : ResolutionContext := ⟨false, [], []⟩

/-- Context after installing `pkgADep` into the empty context. -/
def ctxW10after : ResolutionContext :=
  ⟨false, [],
    [("A", ⟨some pkgADep, some vOne, [], ["B"], [], [], false, true⟩),
     ("B", ⟨none, none, [("A", rangeAny)], [], [], [], false, true⟩)]⟩

theorem C10_unwrap_total_witness :
    EntriesClosed ctxW10.dependencies ∧
    ctxW10.add_package pkgADep ≠ none ∧
    ctxW10.add_package pkgADep = some (true, ctxW10after) ∧
    EntriesClosed ctxW10after.dependencies ∧
    ({ ctxW10after with pending_queue := [] } : ResolutionContext).should_add_package
      "B" rangeAny ≠ none := by
  have hclosed : EntriesClosed ctxW10.dependencies := fun n i h => nomatch h
  refine ⟨hclosed, C10_unwrap_total.2.2.2.1 ctxW10 pkgADep hclosed, rfl,
    C10_unwrap_total.2.2.2.2.1 ctxW10 pkgADep true ctxW10after hclosed rfl, ?_⟩
  exact C10_unwrap_total.2.2.2.2.2 ctxW10 pkgADep ctxW10after rfl ("B", rangeAny)
    (by simp [pkgADep]) []

/-- Membership in the accumulated conflict map: `source` is recorded in the
list keyed by `name`. -/
def conflictMem (c : List (String × List String)) (name source : String) : Prop :=
  ∃ l, lookupD c name = some l ∧ source ∈ l

theorem conflictMem_updateD_push (c : List (String × List String)) (k x n s : String)
    (h : conflictMem c n s) :
    conflictMem (updateD c k (fun o => o.getD [] ++ [x])) n s := by
  obtain ⟨l, hl, hs⟩ := h
  by_cases hk : n = k
  · subst hk
    refine ⟨(lookupD c n).getD [] ++ [x], by rw [lookupD_updateD_self], ?_⟩
    rw [hl]
    exact List.mem_append_left _ hs
  · exact ⟨l, by rw [lookupD_updateD_ne _ _ _ _ hk]; exact hl, hs⟩

theorem conflictMem_conflictAdd_mono (name : String) (version : Version) (allow : Bool)
    (c : List (String × List String)) (sr : String × VersionRange) (n s : String)
    (h : conflictMem c n s) :
    conflictMem (conflictAdd name version allow c sr) n s := by
  unfold conflictAdd
  split
  · exact conflictMem_updateD_push c name sr.1 n s h
  · exact h

theorem conflictMem_innerFold_mono (name : String) (version : Version) (allow : Bool)
    (reqs : List (String × VersionRange)) (c : List (String × List String)) (n s : String)
    (h : conflictMem c n s) :
    conflictMem (reqs.foldl (conflictAdd name version allow) c) n s := by
  induction reqs generalizing c with
  | nil => exact h
  | cons sr rest ih =>
    simp only [List.foldl_cons]
    exact ih _ (conflictMem_conflictAdd_mono name version allow c sr n s h)

theorem conflictMem_step_mono (ap : Bool) (c : List (String × List String))
    (ni : String × DependencyInfo) (n s : String) (h : conflictMem c n s) :
    conflictMem (conflictStep ap c ni) n s := by
  unfold conflictStep
  split
  · cases ni.2.current with
    | some version => exact conflictMem_innerFold_mono _ _ _ _ _ _ _ h
    | none => exact h
  · exact h

theorem conflictMem_outerFold_mono (ap : Bool) (L : List (String × DependencyInfo))
    (c : List (String × List String)) (n s : String) (h : conflictMem c n s) :
    conflictMem (L.foldl (conflictStep ap) c) n s := by
  induction L generalizing c with
  | nil => exact h
  | cons ni rest ih =>
    simp only [List.foldl_cons]
    exact ih _ (conflictMem_step_mono ap c ni n s h)

theorem conflictMem_innerFold_establish (name : String) (version : Version) (allow : Bool)
    (reqs : List (String × VersionRange)) (c : List (String × List String))
    (s : String) (range : VersionRange) (hmem : (s, range) ∈ reqs)
    (hfail : range.match_pre version allow = false) :
    conflictMem (reqs.foldl (conflictAdd name version allow) c) name s := by
  induction reqs generalizing c with
  | nil => cases hmem
  | cons sr rest ih =>
    simp only [List.foldl_cons]
    rcases List.mem_cons.mp hmem with h | h
    · subst h
      refine conflictMem_innerFold_mono name version allow rest _ name s ?_
      show conflictMem (if !(range.match_pre version allow) then
          updateD c name (fun o => o.getD [] ++ [s]) else c) name s
      rw [hfail]
      show conflictMem (updateD c name (fun o => o.getD [] ++ [s])) name s
      exact ⟨(lookupD c name).getD [] ++ [s], by rw [lookupD_updateD_self],
        List.mem_append_right _ (by simp)⟩
    · exact ih _ h

theorem conflictMem_outerFold_establish (ap : Bool) (L : List (String × DependencyInfo))
    (c : List (String × List String)) (name : String) (info : DependencyInfo) (v : Version)
    (source : String) (range : VersionRange)
    (hmem : (name, info) ∈ L) (hleg : info.is_legacy = false) (ht : info.touched = true)
    (hcur : info.current = some v) (hreq : (source, range) ∈ info.requirements)
    (hfail : range.match_pre v (info.allow_pre || ap) = false) :
    conflictMem (L.foldl (conflictStep ap) c) name source := by
  induction L generalizing c with
  | nil => cases hmem
  | cons ni rest ih =>
    simp only [List.foldl_cons]
    rcases List.mem_cons.mp hmem with h | h
    · subst h
      refine conflictMem_outerFold_mono ap rest _ name source ?_
      show conflictMem (if !info.is_legacy && info.touched then
          match info.current with
          | some version =>
            info.requirements.foldl (conflictAdd name version (info.allow_pre || ap)) c
          | none => c
        else c) name source
      rw [hleg, ht, hcur]
      show conflictMem
        (info.requirements.foldl (conflictAdd name v (info.allow_pre || ap)) c) name source
      exact conflictMem_innerFold_establish name v _ info.requirements c source range hreq hfail
    · exact ih _ h

theorem conflictMem_updateD_push_inv (c : List (String × List String)) (k x n s : String)
    (h : conflictMem (updateD c k (fun o => o.getD [] ++ [x])) n s) :
    conflictMem c n s ∨ (n = k ∧ s = x) := by
  obtain ⟨l, hl, hs⟩ := h
  by_cases hk : n = k
  · subst hk
    rw [lookupD_updateD_self] at hl
    simp only [Option.some.injEq] at hl
    rw [← hl] at hs
    rcases List.mem_append.mp hs with h1 | h1
    · cases hcl : lookupD c n with
      | none =>
        rw [hcl] at h1
        cases h1
      | some l0 =>
        rw [hcl] at h1
        exact Or.inl ⟨l0, hcl, h1⟩
    · simp at h1
      exact Or.inr ⟨rfl, h1⟩
  · rw [lookupD_updateD_ne _ _ _ _ hk] at hl
    exact Or.inl ⟨l, hl, hs⟩

theorem conflictMem_conflictAdd_inv (name : String) (version : Version) (allow : Bool)
    (c : List (String × List String)) (sr : String × VersionRange) (n s : String)
    (h : conflictMem (conflictAdd name version allow c sr) n s) :
    conflictMem c n s ∨
      (n = name ∧ s = sr.1 ∧ sr.2.match_pre version allow = false) := by
  unfold conflictAdd at h
  split at h
  · rename_i hcond
    rcases conflictMem_updateD_push_inv c name sr.1 n s h with h1 | ⟨h1, h2⟩
    · exact Or.inl h1
    · exact Or.inr ⟨h1, h2, by simpa using hcond⟩
  · exact Or.inl h

theorem conflictMem_innerFold_inv (name : String) (version : Version) (allow : Bool)
    (reqs : List (String × VersionRange)) (c : List (String × List String)) (n s : String)
    (h : conflictMem (reqs.foldl (conflictAdd name version allow) c) n s) :
    conflictMem c n s ∨
      (n = name ∧ ∃ range, (s, range) ∈ reqs ∧ range.match_pre version allow = false) := by
  induction reqs generalizing c with
  | nil => exact Or.inl h
  | cons sr rest ih =>
    simp only [List.foldl_cons] at h
    rcases ih _ h with h1 | ⟨h1, range, hr, hf⟩
    · rcases conflictMem_conflictAdd_inv name version allow c sr n s h1 with h2 | ⟨h2, h3, h4⟩
      · exact Or.inl h2
      · refine Or.inr ⟨h2, sr.2, ?_, h4⟩
        rw [h3]
        exact List.mem_cons_self sr rest
    · exact Or.inr ⟨h1, range, List.mem_cons_of_mem sr hr, hf⟩

theorem conflictStep_inv (ap : Bool) (c : List (String × List String))
    (ni : String × DependencyInfo) (n s : String)
    (h : conflictMem (conflictStep ap c ni) n s) :
    conflictMem c n s ∨
      (n = ni.1 ∧ ni.2.is_legacy = false ∧ ni.2.touched = true ∧
        ∃ v, ni.2.current = some v ∧
          ∃ range, (s, range) ∈ ni.2.requirements ∧
            range.match_pre v (ni.2.allow_pre || ap) = false) := by
  unfold conflictStep at h
  split at h
  · rename_i hcond
    simp only [Bool.and_eq_true, Bool.not_eq_true'] at hcond
    cases hcur : ni.2.current with
    | some version =>
      rw [hcur] at h
      rcases conflictMem_innerFold_inv ni.1 version (ni.2.allow_pre || ap)
          ni.2.requirements c n s h with h1 | ⟨h1, range, hr, hf⟩
      · exact Or.inl h1
      · exact Or.inr ⟨h1, hcond.1, hcond.2, version, rfl, range, hr, hf⟩
    | none =>
      rw [hcur] at h
      exact Or.inl h
  · exact Or.inl h

theorem conflicts_sound (ap : Bool) (L : List (String × DependencyInfo))
    (c : List (String × List String)) (n s : String)
    (h : conflictMem (L.foldl (conflictStep ap) c) n s) :
    conflictMem c n s ∨
      ∃ ni, ni ∈ L ∧ n = ni.1 ∧ ni.2.is_legacy = false ∧ ni.2.touched = true ∧
        ∃ v, ni.2.current = some v ∧
          ∃ range, (s, range) ∈ ni.2.requirements ∧
            range.match_pre v (ni.2.allow_pre || ap) = false := by
  induction L generalizing c with
  | nil => exact Or.inl h
  | cons ni rest ih =>
    simp only [List.foldl_cons] at h
    rcases ih _ h with h1 | ⟨nj, hnj, rest'⟩
    · rcases conflictStep_inv ap c ni n s h1 with h2 | h2
      · exact Or.inl h2
      · exact Or.inr ⟨ni, List.mem_cons_self ni rest, h2⟩
    · exact Or.inr ⟨nj, List.mem_cons_of_mem ni hnj, rest'⟩

/-- C6: the conflict output of `build_result` contains, keyed by a package
name, exactly the requiring sources whose range fails against the current
version of a touched, non-legacy entry with a current version; entries that
are legacy, untouched, or without a current version contribute nothing. -/
theorem C6_conflict_completeness (ctx : ResolutionContext) :
    (∀ name info v source range,
      (name, info) ∈ ctx.dependencies → info.is_legacy = false → info.touched = true →
      info.current = some v → (source, range) ∈ info.requirements →
      range.match_pre v (info.allow_pre || ctx.allow_prerelease) = false →
      conflictMem ctx.build_result.conflicts name source) ∧
    (∀ name source, conflictMem ctx.build_result.conflicts name source →
      ∃ info, (name, info) ∈ ctx.dependencies ∧ info.is_legacy = false ∧
        info.touched = true ∧ ∃ v, info.current = some v ∧
          ∃ range, (source, range) ∈ info.requirements ∧
            range.match_pre v (info.allow_pre || ctx.allow_prerelease) = false) := by
  have hc : ctx.build_result.conflicts
      = ctx.dependencies.foldl (conflictStep ctx.allow_prerelease) [] := rfl
  constructor
  · intro name info v source range hmem hleg ht hcur hreq hfail
    rw [hc]
    exact conflictMem_outerFold_establish ctx.allow_prerelease ctx.dependencies []
      name info v source range hmem hleg ht hcur hreq hfail
  · intro name source h
    rw [hc] at h
    rcases conflicts_sound ctx.allow_prerelease ctx.dependencies [] name source h with
      h1 | ⟨ni, hni, hn, hleg, ht, v, hcur, range, hr, hf⟩
    · obtain ⟨l, hl, _⟩ := h1
      cases hl
    · subst hn
      exact ⟨ni.2, by rw [Prod.mk.eta] at *; exact hni, hleg, ht, v, hcur, range, hr, hf⟩

def entryC6 : DependencyInfo :=
  ⟨none, some vOne, [("", rangeNone), ("B", rangeAny)], [], [], [], false, true⟩

def ctxC6 : ResolutionContext := ⟨false, [], [("A", entryC6)]⟩

theorem C6_conflict_completeness_witness :
    (("A", entryC6) ∈ ctxC6.dependencies ∧ entryC6.is_legacy = false ∧
      entryC6.touched = true ∧ entryC6.current = some vOne ∧
      ("", rangeNone) ∈ entryC6.requirements ∧
      rangeNone.match_pre vOne (entryC6.allow_pre || ctxC6.allow_prerelease) = false) ∧
    conflictMem ctxC6.build_result.conflicts "A" "" := by
  refine ⟨⟨?_, rfl, rfl, rfl, ?_, rfl⟩, ?_⟩
  · simp [ctxC6]
  · simp [entryC6]
  · exact (C6_conflict_completeness ctxC6).1 "A" entryC6 vOne "" rangeNone
      (by simp [ctxC6]) rfl rfl rfl (by simp [entryC6]) rfl

theorem option_or_eq_none {α : Type} (a b : Option α) :
    a.or b = none ↔ a = none ∧ b = none := by
  cases a <;> simp [Option.or]

theorem processDeps_error_iff (env : PackageCollection) (unity : Option UnityVersion)
    (deps : List (String × VersionRange)) (ctx : ResolutionContext) (d : String) :
    processDeps env unity deps ctx
        = some (Except.error (AddPackageErr.DependencyNotFound d)) ↔
      ∃ pre r post ctx',
        deps = pre ++ (d, r) :: post ∧
        processDeps env unity pre ctx = some (Except.ok ctx') ∧
        ctx'.should_add_package d r = some true ∧
        env.find_package_by_name d (VersionSelector.range_for unity r) = none ∧
        env.find_package_by_name d (VersionSelector.range_for none r) = none := by
  induction deps generalizing ctx with
  | nil =>
    constructor
    · intro h
      simp [processDeps] at h
    · rintro ⟨pre, r, post, ctx', hsplit, _⟩
      cases pre <;> simp at hsplit
  | cons dr rest ih =>
    obtain ⟨d0, r0⟩ := dr
    constructor
    · intro h
      simp only [processDeps] at h
      split at h
      · cases h
      · rename_i hs
        obtain ⟨pre, r, post, ctx', hsplit, hpre, hsa, h1, h2⟩ := (ih ctx).mp h
        refine ⟨(d0, r0) :: pre, r, post, ctx', by rw [hsplit]; rfl, ?_, hsa, h1, h2⟩
        simp only [processDeps]
        rw [hs]
        exact hpre
      · rename_i hs
        split at h
        · rename_i hf
          simp only [Option.some.injEq, Except.error.injEq,
            AddPackageErr.DependencyNotFound.injEq] at h
          subst h
          obtain ⟨h1, h2⟩ := (option_or_eq_none _ _).mp hf
          exact ⟨[], r0, rest, ctx, rfl, rfl, hs, h1, h2⟩
        · rename_i found hf
          obtain ⟨pre, r, post, ctx', hsplit, hpre, hsa, h1, h2⟩ := (ih _).mp h
          refine ⟨(d0, r0) :: pre, r, post, ctx', by rw [hsplit]; rfl, ?_, hsa, h1, h2⟩
          simp only [processDeps]
          rw [hs, hf]
          exact hpre
    · rintro ⟨pre, r, post, ctx', hsplit, hpre, hsa, h1, h2⟩
      cases pre with
      | nil =>
        simp only [List.nil_append, List.cons.injEq, Prod.mk.injEq] at hsplit
        obtain ⟨⟨hd, hr⟩, hrest⟩ := hsplit
        subst hd
        subst hr
        subst hrest
        have hctx : ctx' = ctx := by
          simp [processDeps] at hpre
          exact hpre.symm
        subst hctx
        have hor := (option_or_eq_none _ _).mpr ⟨h1, h2⟩
        simp only [processDeps]
        rw [hsa, hor]
      | cons p0 pre' =>
        simp only [List.cons_append, List.cons.injEq] at hsplit
        obtain ⟨hp0, hrest⟩ := hsplit
        subst hp0
        simp only [processDeps] at hpre ⊢
        split at hpre
        · cases hpre
        · exact (ih ctx).mpr ⟨pre', r, post, ctx', hrest, hpre, hsa, h1, h2⟩
        · split at hpre
          · cases hpre
          · exact (ih _).mpr ⟨pre', r, post, ctx', hrest, hpre, hsa, h1, h2⟩

theorem runLoop_error_iff (env : PackageCollection) (unity : Option UnityVersion)
    (fuel : Nat) (ctx : ResolutionContext) (e : AddPackageErr) :
    runLoop env unity fuel ctx = some (Except.error e) ↔
    ∃ n, n < fuel ∧ ∃ c x q ctx2,
      iterOk env unity n ctx = some c ∧
      next_package c.pending_queue = some (x, q) ∧
      ({ c with pending_queue := q } : ResolutionContext).add_package x = some (true, ctx2) ∧
      processDeps env unity x.vpm_dependencies ctx2 = some (Except.error e) := by
  induction fuel generalizing ctx with
  | zero =>
    constructor
    · intro h
      simp [runLoop] at h
    · rintro ⟨n, hn, _⟩
      exact absurd hn (Nat.not_lt_zero n)
  | succ fuel ih =>
    constructor
    · intro h
      simp only [runLoop] at h
      split at h
      · cases h
      · rename_i x0 q0 hpop0
        split at h
        · cases h
        · rename_i c2 hadd0
          obtain ⟨n, hn, c, x', q', ctx2', hiter, hpop', hadd', hproc'⟩ := (ih c2).mp h
          have hstep : iterOk env unity (n + 1) ctx = iterOk env unity n c2 := by
            simp only [iterOk, hpop0, hadd0]
          exact ⟨n + 1, by omega, c, x', q', ctx2',
            by rw [hstep]; exact hiter, hpop', hadd', hproc'⟩
        · rename_i c2 hadd0
          split at h
          · cases h
          · rename_i e' hproc0
            simp only [Option.some.injEq, Except.error.injEq] at h
            subst h
            exact ⟨0, by omega, ctx, x0, q0, c2, rfl, hpop0, hadd0, hproc0⟩
          · rename_i c3 hproc0
            obtain ⟨n, hn, c, x', q', ctx2', hiter, hpop', hadd', hproc'⟩ := (ih c3).mp h
            have hstep : iterOk env unity (n + 1) ctx = iterOk env unity n c3 := by
              simp only [iterOk, hpop0, hadd0, hproc0]
            exact ⟨n + 1, by omega, c, x', q', ctx2',
              by rw [hstep]; exact hiter, hpop', hadd', hproc'⟩
    · rintro ⟨n, hn, c, x, q, ctx2, hiter, hpop, hadd, hproc⟩
      cases n with
      | zero =>
        simp only [iterOk, Option.some.injEq] at hiter
        subst hiter
        simp only [runLoop, hpop, hadd, hproc]
      | succ k =>
        simp only [iterOk] at hiter
        split at hiter
        · cases hiter
        · rename_i x0 q0 hpop0
          split at hiter
          · cases hiter
          · rename_i c2 hadd0
            have hrun : runLoop env unity (fuel + 1) ctx = runLoop env unity fuel c2 := by
              simp only [runLoop, hpop0, hadd0]
            rw [hrun]
            exact (ih c2).mpr ⟨k, by omega, c, x, q, ctx2, hiter, hpop, hadd, hproc⟩
          · rename_i c2 hadd0
            split at hiter
            · cases hiter
            · cases hiter
            · rename_i c3 hproc0
              have hrun : runLoop env unity (fuel + 1) ctx = runLoop env unity fuel c3 := by
                simp only [runLoop, hpop0, hadd0, hproc0]
              rw [hrun]
              exact (ih c3).mpr ⟨k, by omega, c, x, q, ctx2, hiter, hpop, hadd, hproc⟩

theorem collect_error_iff (dependencies : List (String × DependencyRange))
    (locked_dependencies : List LockedDependencyInfo)
    (get_locked : String → Option LockedDependencyInfo)
    (unity_version : Option UnityVersion) (env : PackageCollection)
    (packages : List PackageInfo) (allow_prerelease : Bool) (fuel : Nat)
    (e : AddPackageErr) :
    collect_adding_packages dependencies locked_dependencies get_locked unity_version env
        packages allow_prerelease fuel = some (Except.error e) ↔
      runLoop env unity_version fuel
        (seedContext dependencies locked_dependencies get_locked env packages
          allow_prerelease) = some (Except.error e) := by
  constructor
  · intro h
    unfold collect_adding_packages at h
    split at h
    · cases h
    · rename_i e' hrun
      simp only [Option.some.injEq, Except.error.injEq] at h
      subst h
      exact hrun
    · simp at h
  · intro h
    unfold collect_adding_packages
    rw [h]

/-- C3: the resolution returns `DependencyNotFound d` exactly when, at some
iteration of the driver loop, a just-installed package declares `d` with a
range for which `should_add_package` answered `true` while both the
platform-constrained and the unconstrained environment lookups return no
package for `d`; and when it does, no result triple is produced. -/
theorem C3_dependency_not_found (dependencies : List (String × DependencyRange))
    (locked_dependencies : List LockedDependencyInfo)
    (get_locked : String → Option LockedDependencyInfo)
    (unity_version : Option UnityVersion) (env : PackageCollection)
    (packages : List PackageInfo) (allow_prerelease : Bool) (fuel : Nat) (d : String) :
    (collect_adding_packages dependencies locked_dependencies get_locked unity_version env
        packages allow_prerelease fuel
        = some (Except.error (AddPackageErr.DependencyNotFound d)) ↔
      ∃ n, n < fuel ∧ ∃ c x q ctx2,
        iterOk env unity_version n
            (seedContext dependencies locked_dependencies get_locked env packages
              allow_prerelease) = some c ∧
        next_package c.pending_queue = some (x, q) ∧
        ({ c with pending_queue := q } : ResolutionContext).add_package x
          = some (true, ctx2) ∧
        ∃ pre r post ctx3,
          x.vpm_dependencies = pre ++ (d, r) :: post ∧
          processDeps env unity_version pre ctx2 = some (Except.ok ctx3) ∧
          ctx3.should_add_package d r = some true ∧
          env.find_package_by_name d (VersionSelector.range_for unity_version r) = none ∧
          env.find_package_by_name d (VersionSelector.range_for none r) = none) ∧
    (collect_adding_packages dependencies locked_dependencies get_locked unity_version env
        packages allow_prerelease fuel
        = some (Except.error (AddPackageErr.DependencyNotFound d)) →
      ∀ res, collect_adding_packages dependencies locked_dependencies get_locked
        unity_version env packages allow_prerelease fuel ≠ some (Except.ok res)) := by
  constructor
  · rw [collect_error_iff, runLoop_error_iff]
    constructor
    · rintro ⟨n, hn, c, x, q, ctx2, h1, h2, h3, h4⟩
      exact ⟨n, hn, c, x, q, ctx2, h1, h2, h3, (processDeps_error_iff _ _ _ _ _).mp h4⟩
    · rintro ⟨n, hn, c, x, q, ctx2, h1, h2, h3, h4⟩
      exact ⟨n, hn, c, x, q, ctx2, h1, h2, h3, (processDeps_error_iff _ _ _ _ _).mpr h4⟩
  · intro h res hcontra
    rw [h] at hcontra
    simp at hcontra

def pkgAneedsB : PackageInfo := ⟨"A", vOne, [("B", rangeAny)], []⟩

def envOnlyA : PackageCollection :=
  ⟨fun name _ => if name = "A" then some pkgAneedsB else none⟩

theorem C3_dependency_not_found_witness :
    collect_adding_packages [] [] (fun _ => none) none envOnlyA [pkgAneedsB] false 2
      = some (Except.error (AddPackageErr.DependencyNotFound "B")) ∧
    (∃ n, n < 2 ∧ ∃ c x q ctx2,
      iterOk envOnlyA none n
          (seedContext [] [] (fun _ => none) envOnlyA [pkgAneedsB] false) = some c ∧
      next_package c.pending_queue = some (x, q) ∧
      ({ c with pending_queue := q } : ResolutionContext).add_package x
        = some (true, ctx2) ∧
      ∃ pre r post ctx3,
        x.vpm_dependencies = pre ++ ("B", r) :: post ∧
        processDeps envOnlyA none pre ctx2 = some (Except.ok ctx3) ∧
        ctx3.should_add_package "B" r = some true ∧
        envOnlyA.find_package_by_name "B" (VersionSelector.range_for none r) = none ∧
        envOnlyA.find_package_by_name "B" (VersionSelector.range_for none r) = none) := by
  refine ⟨rfl, ?_⟩
  exact ((C3_dependency_not_found [] [] (fun _ => none) none envOnlyA [pkgAneedsB]
    false 2 "B").1).mp rfl
